import Mathlib

/-!
Verification of the sandbox repository (macOS seatbelt / Linux bubblewrap
command sandboxer) against its natural-language specification.

The TypeScript sources are shallowly embedded: JavaScript strings are
modelled as Lean `String` (a list of characters; JS UTF-16 code-unit
operations coincide with character operations on the BMP strings that
appear throughout), effectful inputs (filesystem real-path resolution,
`process.cwd()`, `homedir()`, `which`, socket existence) are passed in
explicitly as environment records, and fallible code returns `Except`
or `Option`.  All definitions are executable and structurally recursive.
-/

namespace Sandbox

/-! ## Generic JS-style string primitives -/

/-- The characters of a string. -/
def chars (s : String) : List Char := s.data

/-- Build a string from characters. -/
def ofChars (l : List Char) : String := ⟨l⟩

@[simp] theorem chars_ofChars (l : List Char) : chars (ofChars l) = l := rfl

@[simp] theorem ofChars_chars (s : String) : ofChars (chars s) = s := rfl

theorem chars_append (s t : String) : chars (s ++ t) = chars s ++ chars t :=
  String.data_append s t

/-- JS `s.startsWith(p)`. -/
def jsStartsWith (s p : String) : Bool := (chars p).isPrefixOf (chars s)

/-- JS `s.endsWith(p)`. -/
def jsEndsWith (s p : String) : Bool := (chars p).isSuffixOf (chars s)

/-- Does the character occur in the string (JS `s.includes(c)` for a
single-character needle)? -/
def containsChar (s : String) (c : Char) : Bool := (chars s).contains c

/-- Substring containment over character lists. -/
def listHasInfix (needle : List Char) : List Char → Bool
  | [] => needle.isEmpty
  | c :: t => needle.isPrefixOf (c :: t) || listHasInfix needle t

/-- JS `s.includes(t)` for a general needle. -/
def jsIncludes (s t : String) : Bool := listHasInfix (chars t) (chars s)

/-- Split a character list at every occurrence of the separator
(JS `String.prototype.split` with a single-character separator). -/
def splitc (sep : Char) : List Char → List (List Char)
  | [] => [[]]
  | c :: t =>
    match splitc sep t with
    | [] => if c = sep then [[], []] else [[c]]
    | h :: r => if c = sep then [] :: h :: r else (c :: h) :: r

/-- JS `s.split(sep)` for a one-character separator, as strings. -/
def jsSplitChar (s : String) (sep : Char) : List String :=
  (splitc sep (chars s)).map ofChars

/-- JS `String.prototype.toLowerCase` (ASCII range; the hostnames and
domain patterns concerned are ASCII). -/
def jsToLower (s : String) : String := ofChars ((chars s).map Char.toLower)

/-- JS `s.slice(n)` for a nonnegative start index (code units = chars here). -/
def jsDrop (s : String) (n : Nat) : String := ofChars ((chars s).drop n)

/-- JS `s.slice(0, n)` for a nonnegative end index. -/
def jsTake (s : String) (n : Nat) : String := ofChars ((chars s).take n)

/-- JS string length (in code units = characters for the BMP strings here). -/
def jsLength (s : String) : Nat := (chars s).length

/-! ## Domain-pattern validation (source: `validateDomainPattern`,
`validateWildcardDomain` in the zod config schema module) -/

/-- Embeds `validateWildcardDomain`: the base domain of a `*.` pattern must
contain a dot, not start or end with a dot, and split into ≥ 2 nonempty
dot-separated labels. -/
def validateWildcardDomain (domain : String) : Bool :=
  if !jsIncludes domain "." || jsStartsWith domain "." || jsEndsWith domain "." then
    false
  else
    let parts := jsSplitChar domain '.'
    decide (parts.length ≥ 2) && parts.all (fun p => jsLength p > 0)

/-- Embeds `validateDomainPattern`: rejects schemes/slashes/colons, accepts
`localhost`, validates `*.`-wildcards via `validateWildcardDomain`, rejects
any other wildcard, and otherwise requires a dotted name without edge dots. -/
def validateDomainPattern (val : String) : Bool :=
  if jsIncludes val "://" || jsIncludes val "/" || jsIncludes val ":" then
    false
  else if val = "localhost" then true
  else if jsStartsWith val "*." then
    validateWildcardDomain (jsDrop val 2)
  else if jsIncludes val "*" then false
  else
    jsIncludes val "." && !jsStartsWith val "." && !jsEndsWith val "."

/-- Claim C5: the domain-pattern validator rejects "", ".com", "com.",
"foo*bar.com", "http://x", "x/y", "x:y", "*.x", "**.x.com", and accepts
"localhost", "x.com", "*.x.com". -/
theorem validateDomainPattern_cases :
    validateDomainPattern "" = false ∧
    validateDomainPattern ".com" = false ∧
    validateDomainPattern "com." = false ∧
    validateDomainPattern "foo*bar.com" = false ∧
    validateDomainPattern "http://x" = false ∧
    validateDomainPattern "x/y" = false ∧
    validateDomainPattern "x:y" = false ∧
    validateDomainPattern "*.x" = false ∧
    validateDomainPattern "**.x.com" = false ∧
    validateDomainPattern "localhost" = true ∧
    validateDomainPattern "x.com" = true ∧
    validateDomainPattern "*.x.com" = true := by
  decide

/-! ## Network filter (source: `matchesDomainPattern`, `isDomainDenied`,
`isDomainAllowed`, `askUserPermission`, `filterNetworkRequest`) -/

/-- Embeds `matchesDomainPattern`: a `*.`-pattern matches when the lowercased
hostname ends with `"." + base`, otherwise matching is lowercased equality. -/
def matchesDomainPattern (hostname pattern : String) : Bool :=
  if jsStartsWith pattern "*." then
    let baseDomain := jsDrop pattern 2
    jsEndsWith (jsToLower hostname) ("." ++ jsToLower baseDomain)
  else
    jsToLower hostname = jsToLower pattern

/-- The network slice of `SandboxRuntimeConfig` used by the filter. -/
structure NetworkPolicy where
  allowedDomains : List String
  deniedDomains : List String
deriving DecidableEq

/-- Embeds `isDomainDenied`. -/
def isDomainDenied (host : String) (config : NetworkPolicy) : Bool :=
  config.deniedDomains.any (fun d => matchesDomainPattern host d)

/-- Embeds `isDomainAllowed`. -/
def isDomainAllowed (host : String) (config : NetworkPolicy) : Bool :=
  config.allowedDomains.any (fun d => matchesDomainPattern host d)

/-- The interactive permission callback: it may answer (`Except.ok`) or
throw (`Except.error`), matching the `try`/`catch` in `askUserPermission`. -/
def AskCallback := String → Nat → Except String Bool

/-- Embeds `askUserPermission`: propagate the callback's answer, a thrown
error becomes `false`. -/
def askUserPermission (host : String) (port : Nat)
    (sandboxAskCallback : AskCallback) : Bool :=
  match sandboxAskCallback host port with
  | .ok userAllowed => userAllowed
  | .error _ => false

/-- Embeds `filterNetworkRequest`. -/
def filterNetworkRequest (port : Nat) (host : String)
    (config : Option NetworkPolicy)
    (sandboxAskCallback : Option AskCallback) : Bool :=
  match config with
  | none => false
  | some config =>
    if isDomainDenied host config then false
    else if isDomainAllowed host config then true
    else
      match sandboxAskCallback with
      | none => false
      | some cb => askUserPermission host port cb

/-- Written from the specification's words (§4.4): 1. no policy → deny;
2. any `denied_domains` match → deny; 3. any `allowed_domains` match →
allow; 4. otherwise a configured ask callback's answer is propagated, with
a callback error giving deny; 5. else deny. -/
def filterNetworkRequestSpec (port : Nat) (host : String)
    (config : Option NetworkPolicy)
    (ask : Option AskCallback) : Bool :=
  match config with
  | none => false
  | some c =>
    if c.deniedDomains.any (fun p => matchesDomainPattern host p) then false
    else if c.allowedDomains.any (fun p => matchesDomainPattern host p) then true
    else
      match ask with
      | none => false
      | some cb =>
        match cb host port with
        | .ok answer => answer
        | .error _ => false

/-- Claim C2: `filterNetworkRequest` evaluates exactly in the spec's order —
no config denies; a denied-domains match denies even when an allowed-domains
match also holds; an allowed-domains match then allows; otherwise a
configured ask callback's answer is propagated with errors mapped to deny;
otherwise it denies. -/
theorem filterNetworkRequest_follows_spec :
    (∀ (port : Nat) (host : String) (config : Option NetworkPolicy)
        (ask : Option AskCallback),
      filterNetworkRequest port host config ask =
        filterNetworkRequestSpec port host config ask) ∧
    (∀ (port : Nat) (host : String) (c : NetworkPolicy) (ask : Option AskCallback),
      isDomainDenied host c = true →
        filterNetworkRequest port host (some c) ask = false) := by
  constructor
  · intro port host config ask
    cases config with
    | none => rfl
    | some c =>
      simp only [filterNetworkRequest, filterNetworkRequestSpec, isDomainDenied,
        isDomainAllowed, askUserPermission]
  · intro port host c ask h
    simp [filterNetworkRequest, h]

/-- Witness for C2 at concrete inputs: with `denied = ["x.com"]` and
`allowed = ["x.com"]` the host `x.com` is denied (deny wins), and the
spec-equality holds at those inputs. -/
theorem filterNetworkRequest_follows_spec_witness :
    filterNetworkRequest 443 "x.com"
        (some ⟨["x.com"], ["x.com"]⟩) none = false ∧
    filterNetworkRequest 443 "x.com" (some ⟨["x.com"], ["x.com"]⟩) none =
      filterNetworkRequestSpec 443 "x.com" (some ⟨["x.com"], ["x.com"]⟩) none :=
  ⟨filterNetworkRequest_follows_spec.2 443 "x.com" ⟨["x.com"], ["x.com"]⟩ none
      (by decide),
    filterNetworkRequest_follows_spec.1 443 "x.com"
      (some ⟨["x.com"], ["x.com"]⟩) none⟩

/-- Claim C10: wildcard patterns `*.d` match exactly the lowercased hosts
ending in `"." + lowercase d` (so the bare domain `d` never matches `*.d`),
and wildcard-free patterns match exactly by lowercased equality. -/
theorem matchesDomainPattern_spec :
    (∀ h d : String,
      matchesDomainPattern h ("*." ++ d) =
        jsEndsWith (jsToLower h) ("." ++ jsToLower d)) ∧
    (∀ d : String, matchesDomainPattern d ("*." ++ d) = false) ∧
    (∀ h p : String, containsChar p '*' = false →
      matchesDomainPattern h p = (jsToLower h = jsToLower p)) := by
  have hchars : ∀ d : String, chars ("*." ++ d) = '*' :: '.' :: chars d := by
    intro d
    simp [chars, String.data_append]
  have hpre : ∀ d : String, jsStartsWith ("*." ++ d) "*." = true := by
    intro d
    simp [jsStartsWith, hchars, List.isPrefixOf]
  have hdrop : ∀ d : String, jsDrop ("*." ++ d) 2 = d := by
    intro d
    rw [jsDrop, hchars]
    simp
  refine ⟨?_, ?_, ?_⟩
  · intro h d
    simp [matchesDomainPattern, hpre, hdrop]
  · intro d
    simp only [matchesDomainPattern, hpre, if_pos, hdrop]
    -- the suffix "." ++ lower d is one character longer than lower d
    rw [jsEndsWith]
    apply Bool.eq_false_iff.mpr
    intro hsuf
    have hlen := (List.isSuffixOf_iff_suffix.mp hsuf).length_le
    simp [chars, jsToLower, ofChars, String.data_append] at hlen
  · intro h p hstar
    have hpre2 : jsStartsWith p "*." = false := by
      rw [jsStartsWith, show chars "*." = ['*', '.'] from rfl]
      cases hp : chars p with
      | nil => simp [List.isPrefixOf]
      | cons c t =>
        have hc : c ≠ '*' := by
          intro hc
          rw [containsChar, hp, hc] at hstar
          simp at hstar
        simp [List.isPrefixOf_cons₂]
        intro heq
        exact absurd heq.symm hc
    simp [matchesDomainPattern, hpre2]

/-- Witness for C10: `host.x.com` matches `*.x.com`, `x.com` does not match
`*.x.com`, and the wildcard-free pattern `X.com` matches `x.COM`. -/
theorem matchesDomainPattern_spec_witness :
    matchesDomainPattern "host.x.com" ("*." ++ "x.com") = true ∧
    matchesDomainPattern "x.com" ("*." ++ "x.com") = false ∧
    matchesDomainPattern "x.COM" "X.com" = true :=
  ⟨by rw [matchesDomainPattern_spec.1 "host.x.com" "x.com"]; decide,
    matchesDomainPattern_spec.2.1 "x.com",
    by rw [matchesDomainPattern_spec.2.2 "x.COM" "X.com" (by decide)]; decide⟩

/-! ## Command encoding and log tags (source: `encodeSandboxedCommand` in
`command-utils.ts`, `generateLogTag` in `profile-utils.ts`) -/

/-- UTF-8 encoding of one character (what `Buffer.from(string)` does per
code point). -/
def utf8EncodeChar (c : Char) : List Nat :=
  let n := c.toNat
  if n < 128 then [n]
  else if n < 2048 then [192 + n / 64, 128 + n % 64]
  else if n < 65536 then [224 + n / 4096, 128 + (n / 64) % 64, 128 + n % 64]
  else [240 + n / 262144, 128 + (n / 4096) % 64, 128 + (n / 64) % 64, 128 + n % 64]

/-- UTF-8 bytes of a character list. -/
def utf8Bytes : List Char → List Nat
  | [] => []
  | c :: t => utf8EncodeChar c ++ utf8Bytes t

/-- UTF-8 bytes of a string (`Buffer.from(s)`). -/
def utf8OfString (s : String) : List Nat := utf8Bytes (chars s)

/-- The base64 alphabet, indexed 0–63. -/
def base64Char (n : Nat) : Char :=
  (chars "ABCDEFGHIJKLMNOPQRSTUVWXYZabcdefghijklmnopqrstuvwxyz0123456789+/").getD n 'A'

/-- Encode a chunk of at most three bytes into four base64 characters with
`=` padding. -/
def base64Chunk : List Nat → List Char
  | [b1] => [base64Char (b1 / 4), base64Char (b1 % 4 * 16), '=', '=']
  | [b1, b2] =>
    [base64Char (b1 / 4), base64Char (b1 % 4 * 16 + b2 / 16),
      base64Char (b2 % 16 * 4), '=']
  | [b1, b2, b3] =>
    [base64Char (b1 / 4), base64Char (b1 % 4 * 16 + b2 / 16),
      base64Char (b2 % 16 * 4 + b3 / 64), base64Char (b3 % 64)]
  | _ => []

/-- Base64 of a byte list (`buffer.toString('base64')`). -/
def base64Go : List Nat → List Char
  | b1 :: b2 :: b3 :: rest => base64Chunk [b1, b2, b3] ++ base64Go rest
  | rest => base64Chunk rest

/-- Base64 of a byte list, as a string. -/
def base64Encode (bytes : List Nat) : String := ofChars (base64Go bytes)

/-- Embeds `encodeSandboxedCommand`: base64 of the UTF-8 bytes of
`command.slice(0, 100)` — the first 100 *characters* (UTF-16 code units in
JS; identical for the BMP strings modelled here), not the first 100 bytes. -/
def encodeSandboxedCommand (command : String) : String :=
  base64Encode (utf8OfString (jsTake command 100))

/-- Embeds `generateLogTag`.  The module-level random `sessionSuffix` is
passed as a parameter. -/
def generateLogTag (sessionSuffix : String) (command : String) : String :=
  "CMD64_" ++ encodeSandboxedCommand command ++ "_END_" ++ sessionSuffix

/-- What claim C9 states the encoding to be: base64 of the first 100
*bytes* of the command. -/
def encodeFirst100Bytes (command : String) : String :=
  base64Encode ((utf8OfString command).take 100)

/-- Is every character of the string ASCII? -/
def allAscii (s : String) : Bool := (chars s).all (fun c => c.toNat < 128)

/-- Counterexample to claim C9 as stated: for a command of 51 copies of the
two-byte character 'é' (102 UTF-8 bytes, 51 characters), the code encodes
all 102 bytes of the first 100 characters, not the first 100 bytes, and the
log tag embeds that different base64 string. -/
theorem encodeSandboxedCommand_not_first100Bytes :
    encodeSandboxedCommand (ofChars (List.replicate 51 'é')) ≠
      encodeFirst100Bytes (ofChars (List.replicate 51 'é')) ∧
    generateLogTag "_s_VSBX" (ofChars (List.replicate 51 'é')) ≠
      "CMD64_" ++ encodeFirst100Bytes (ofChars (List.replicate 51 'é')) ++
        "_END_" ++ "_s_VSBX" := by
  constructor <;> decide

theorem utf8Bytes_append : ∀ a b : List Char,
    utf8Bytes (a ++ b) = utf8Bytes a ++ utf8Bytes b := by
  intro a b
  induction a with
  | nil => rfl
  | cons c t ih => simp [utf8Bytes, ih, List.append_assoc]

/-- Every character occupies at least one UTF-8 byte. -/
theorem utf8Bytes_ge_len : ∀ l : List Char, l.length ≤ (utf8Bytes l).length := by
  intro l
  induction l with
  | nil => simp [utf8Bytes]
  | cons c t ih =>
    have h1 : 1 ≤ (utf8EncodeChar c).length := by
      rw [utf8EncodeChar]
      split_ifs <;> simp
    simp only [utf8Bytes, List.length_append, List.length_cons]
    omega

/-- ASCII characters occupy exactly one UTF-8 byte each. -/
theorem utf8Bytes_ascii_len : ∀ l : List Char, (∀ c ∈ l, c.toNat < 128) →
    (utf8Bytes l).length = l.length := by
  intro l
  induction l with
  | nil => intro _; rfl
  | cons c t ih =>
    intro h
    have hc : c.toNat < 128 := h c (List.mem_cons_self c t)
    have henc : utf8EncodeChar c = [c.toNat] := by
      rw [utf8EncodeChar]
      simp [hc]
    simp [utf8Bytes, henc, ih (fun x hx => h x (List.mem_cons_of_mem c hx))]

/-- Claim C9, amended: the encoded command is the base64 of the UTF-8
bytes of the first 100 characters of the command; those bytes coincide
with the first 100 bytes of the command's UTF-8 encoding exactly when
they number at most 100 — in particular whenever the first 100
characters are ASCII — and the log tag is exactly
`CMD64_<that base64>_END_<session-suffix>`. -/
theorem generateLogTag_encoding :
    (∀ sessionSuffix command : String,
      generateLogTag sessionSuffix command =
        "CMD64_" ++ base64Encode (utf8OfString (jsTake command 100)) ++
          "_END_" ++ sessionSuffix) ∧
    (∀ command : String,
      utf8OfString (jsTake command 100) = (utf8OfString command).take 100 ↔
        (utf8OfString (jsTake command 100)).length ≤ 100) ∧
    (∀ command : String, allAscii (jsTake command 100) = true →
      encodeSandboxedCommand command = encodeFirst100Bytes command) := by
  have hiff : ∀ command : String,
      utf8OfString (jsTake command 100) = (utf8OfString command).take 100 ↔
        (utf8OfString (jsTake command 100)).length ≤ 100 := by
    intro command
    rw [jsTake, utf8OfString, utf8OfString, chars_ofChars]
    have hsplit : utf8Bytes (chars command) =
        utf8Bytes ((chars command).take 100) ++ utf8Bytes ((chars command).drop 100) := by
      rw [← utf8Bytes_append, List.take_append_drop]
    rw [hsplit]
    constructor
    · intro h
      have hl := congrArg List.length h
      rw [List.length_take] at hl
      omega
    · intro hle
      by_cases hlen : (chars command).length ≤ 100
      · rw [List.drop_eq_nil_of_le hlen]
        rw [show utf8Bytes [] = [] from rfl, List.append_nil]
        exact (List.take_of_length_le hle).symm
      · have h100 : ((chars command).take 100).length = 100 := by
          rw [List.length_take]
          omega
        have hge := utf8Bytes_ge_len ((chars command).take 100)
        have hP : (utf8Bytes ((chars command).take 100)).length = 100 := by omega
        have htl := List.take_left (utf8Bytes ((chars command).take 100))
          (utf8Bytes ((chars command).drop 100))
        rw [hP] at htl
        exact htl.symm
  refine ⟨fun sessionSuffix command => rfl, hiff, ?_⟩
  intro command hascii
  have hlen : (utf8OfString (jsTake command 100)).length ≤ 100 := by
    rw [utf8OfString]
    have hasc : ∀ c ∈ chars (jsTake command 100), c.toNat < 128 := by
      intro c hc
      have := List.all_eq_true.mp hascii c hc
      simpa using this
    rw [utf8Bytes_ascii_len _ hasc, jsTake, chars_ofChars, List.length_take]
    omega
  have hbytes := (hiff command).mpr hlen
  rw [encodeSandboxedCommand, encodeFirst100Bytes, hbytes]

/-- Witness for C9 (amended): the ASCII command "echo hi" satisfies the
hypothesis and the first-100-characters and first-100-bytes encodings
agree on it (its character-prefix encoding is within 100 bytes); the log
tag has the stated shape. -/
theorem generateLogTag_encoding_witness :
    allAscii (jsTake "echo hi" 100) = true ∧
    encodeSandboxedCommand "echo hi" = encodeFirst100Bytes "echo hi" ∧
    (utf8OfString (jsTake "echo hi" 100) = (utf8OfString "echo hi").take 100 ↔
      (utf8OfString (jsTake "echo hi" 100)).length ≤ 100) ∧
    generateLogTag "_s_VSBX" "echo hi" =
      "CMD64_" ++ base64Encode (utf8OfString (jsTake "echo hi" 100)) ++
        "_END_" ++ "_s_VSBX" :=
  ⟨by decide, generateLogTag_encoding.2.2 "echo hi" (by decide),
    generateLogTag_encoding.2.1 "echo hi",
    generateLogTag_encoding.1 "_s_VSBX" "echo hi"⟩

/-! ## Path normalization and the symlink boundary (source: `path-utils`:
`containsGlobChars`, `normalizePrivatePath`, `isSymlinkOutsideBoundary`,
`getNormalizedPath`, `handleGlobPath`, `handleNonGlobPath`,
`normalizePathForSandbox`) -/

/-- Segment-stack normalization used by Node's `path.posix.normalize` /
`resolve` (`normalizeString`): drops empty and `.` segments; `..` pops a
previous segment, and is kept (when `allowAboveRoot`) or dropped (when not)
at the top. -/
def normSegs (allowAboveRoot : Bool) : List String → List String → List String
  | acc, [] => acc.reverse
  | acc, seg :: rest =>
    if seg = "" ∨ seg = "." then normSegs allowAboveRoot acc rest
    else if seg = ".." then
      match acc with
      | [] =>
        if allowAboveRoot then normSegs allowAboveRoot [".."] rest
        else normSegs allowAboveRoot [] rest
      | top :: t =>
        if top = ".." then
          if allowAboveRoot then normSegs allowAboveRoot (".." :: top :: t) rest
          else normSegs allowAboveRoot (top :: t) rest
        else normSegs allowAboveRoot t rest
    else normSegs allowAboveRoot (seg :: acc) rest

/-- Node `path.posix.normalize`. -/
def jsNormalize (p : String) : String :=
  if p = "" then "."
  else
    let isAbs := jsStartsWith p "/"
    let trailing := jsEndsWith p "/"
    let res := String.intercalate "/" (normSegs (!isAbs) [] (jsSplitChar p '/'))
    if res = "" then
      if isAbs then "/" else if trailing then "./" else "."
    else
      let res := if trailing then res ++ "/" else res
      if isAbs then "/" ++ res else res

/-- Node `path.posix.dirname`. -/
def jsDirname (p : String) : String :=
  match chars p with
  | [] => "."
  | c0 :: t =>
    let hasRoot := c0 = '/'
    let rt2 := (t.reverse.dropWhile (fun c => c = '/')).dropWhile (fun c => c ≠ '/')
    if rt2.isEmpty then (if hasRoot then "/" else ".")
    else if hasRoot ∧ rt2.length = 1 then "//"
    else ofChars ((c0 :: t).take rt2.length)

/-- Node `path.posix.resolve(cwd, p)` for an absolute `cwd` (the call sites
pass `process.cwd()`): join and segment-normalize, no trailing slash. -/
def jsResolve (cwd p : String) : String :=
  let res := String.intercalate "/" (normSegs false [] (jsSplitChar (cwd ++ "/" ++ p) '/'))
  if res = "" then "/" else "/" ++ res

/-- Embeds `containsGlobChars` (regex `[*?[\]]`). -/
def containsGlobChars (pathPattern : String) : Bool :=
  (chars pathPattern).any (fun c => c = '*' ∨ c = '?' ∨ c = '[' ∨ c = ']')

/-- Embeds `normalizePrivatePath`: prepend `/private` to `/tmp/…` and
`/var/…`. -/
def normalizePrivatePath (p : String) : String :=
  if jsStartsWith p "/tmp/" || jsStartsWith p "/var/" then "/private" ++ p
  else p

/-- Number of nonempty `/`-separated segments (`split('/').filter(Boolean)`). -/
def segCount (p : String) : Nat :=
  ((jsSplitChar p '/').filter (fun s => s ≠ "")).length

/-- Embeds `isSymlinkOutsideBoundary`. -/
def isSymlinkOutsideBoundary (originalPath resolvedPath : String) : Bool :=
  let normalizedOriginal := jsNormalize originalPath
  let normalizedResolved := jsNormalize resolvedPath
  if normalizedResolved = normalizedOriginal then false
  else
    let canonicalOriginal := normalizePrivatePath normalizedOriginal
    if normalizedResolved = canonicalOriginal then false
    else if normalizedResolved = "/" then true
    else if segCount normalizedResolved ≤ 1 then true
    else
      let startsWithOriginal := jsStartsWith normalizedResolved (normalizedOriginal ++ "/")
      let startsWithCanonical := jsStartsWith normalizedResolved (canonicalOriginal ++ "/")
      if !startsWithOriginal && !startsWithCanonical then true
      else if jsStartsWith normalizedOriginal (normalizedResolved ++ "/") ||
          jsStartsWith canonicalOriginal (normalizedResolved ++ "/") then true
      else false

/-- The effectful inputs of the path normalizer: home directory, current
working directory (both absolute in any real process), and `realpathSync`
as an oracle (`none` models a thrown error). -/
structure PathEnv where
  home : String
  cwd : String
  realpath : String → Option String

/-- Embeds `getNormalizedPath`: tilde expansion, then resolution of
relative paths against the working directory. -/
def getNormalizedPath (env : PathEnv) (pathPattern : String) : String :=
  if pathPattern = "~" then env.home
  else if jsStartsWith pathPattern "~/" then env.home ++ jsDrop pathPattern 1
  else if !jsStartsWith pathPattern "/" then jsResolve env.cwd pathPattern
  else pathPattern

/-- The glob-free static prefix of a pattern (`split(/[*?[\]]/)[0]`). -/
def staticPrefixOf (p : String) : String :=
  ofChars ((chars p).takeWhile (fun c => ¬(c = '*' ∨ c = '?' ∨ c = '[' ∨ c = ']')))

/-- The base directory whose real path a glob pattern's resolution uses:
the static prefix without its trailing slash, or its dirname. -/
def globBase (p : String) : String :=
  let sp := staticPrefixOf p
  if jsEndsWith sp "/" then jsTake sp (jsLength sp - 1) else jsDirname sp

/-- Embeds `handleGlobPath`: resolve the static-prefix base directory
subject to the boundary rule, and splice the glob remainder back. -/
def handleGlobPath (env : PathEnv) (normalizedPath : String) : String :=
  if staticPrefixOf normalizedPath = "" ∨ staticPrefixOf normalizedPath = "/" then
    normalizedPath
  else
    match env.realpath (globBase normalizedPath) with
    | none => normalizedPath
    | some resolvedBaseDir =>
      if !isSymlinkOutsideBoundary (globBase normalizedPath) resolvedBaseDir then
        resolvedBaseDir ++ jsDrop normalizedPath (jsLength (globBase normalizedPath))
      else normalizedPath

/-- Embeds `handleNonGlobPath`. -/
def handleNonGlobPath (env : PathEnv) (normalizedPath : String) : String :=
  match env.realpath normalizedPath with
  | none => normalizedPath
  | some resolvedPath =>
    if !isSymlinkOutsideBoundary normalizedPath resolvedPath then resolvedPath
    else normalizedPath

/-- Embeds `normalizePathForSandbox`. -/
def normalizePathForSandbox (env : PathEnv) (pathPattern : String) : String :=
  let normalizedPath := getNormalizedPath env pathPattern
  if containsGlobChars normalizedPath then handleGlobPath env normalizedPath
  else handleNonGlobPath env normalizedPath

/-- The geometric relation the boundary check enforces between the
normalized original path `o` and a normalized accepted resolution `r`:
`r` equals `o`, equals its private-prefixed form, or is a strict descendant
of one of those — in which case it is not `/`, has at least two segments,
and is not a proper ancestor of `o` or of its private form. -/
def boundaryAccept (o r : String) : Prop :=
  r = o ∨ r = normalizePrivatePath o ∨
    (r ≠ "/" ∧ 2 ≤ segCount r ∧
      (jsStartsWith r (o ++ "/") = true ∨
        jsStartsWith r (normalizePrivatePath o ++ "/") = true) ∧
      jsStartsWith o (r ++ "/") = false ∧
      jsStartsWith (normalizePrivatePath o) (r ++ "/") = false)

/-- A resolution the code accepts satisfies the geometric boundary
relation on the normalized paths. -/
theorem boundaryAccept_of_not_outside (o r : String)
    (h : isSymlinkOutsideBoundary o r = false) :
    boundaryAccept (jsNormalize o) (jsNormalize r) := by
  simp only [isSymlinkOutsideBoundary] at h
  split_ifs at h with h1 h2 h3 h4 h5 h6
  · exact Or.inl h1
  · exact Or.inr (Or.inl h2)
  · -- all rejection tests failed
    refine Or.inr (Or.inr ⟨h3, by omega, ?_, ?_⟩)
    · by_cases hswO : jsStartsWith (jsNormalize r) (jsNormalize o ++ "/") = true
      · exact Or.inl hswO
      · by_cases hswC : jsStartsWith (jsNormalize r)
            (normalizePrivatePath (jsNormalize o) ++ "/") = true
        · exact Or.inr hswC
        · exact absurd (by simp [Bool.not_eq_true] at hswO hswC; simp [hswO, hswC]) h5
    · have h6' := h6
      simp only [Bool.or_eq_true, not_or, Bool.not_eq_true] at h6'
      exact ⟨h6'.1, h6'.2⟩

/-- `handleNonGlobPath` either keeps the path or returns a resolution the
boundary check accepted. -/
theorem handleNonGlobPath_cases (env : PathEnv) (p : String) :
    handleNonGlobPath env p = p ∨
    ∃ R : String, env.realpath p = some R ∧ handleNonGlobPath env p = R ∧
      isSymlinkOutsideBoundary p R = false := by
  cases hrp : env.realpath p with
  | none =>
    left
    rw [handleNonGlobPath, hrp]
  | some R =>
    by_cases hb : isSymlinkOutsideBoundary p R = false
    · refine Or.inr ⟨R, rfl, ?_, hb⟩
      rw [handleNonGlobPath, hrp]
      simp [hb]
    · left
      simp only [Bool.not_eq_false] at hb
      rw [handleNonGlobPath, hrp]
      simp [hb]

/-- `handleGlobPath` either keeps the pattern or splices an accepted
resolution of the static-prefix base directory onto the glob remainder. -/
theorem handleGlobPath_cases (env : PathEnv) (p : String) :
    handleGlobPath env p = p ∨
    ∃ R : String, env.realpath (globBase p) = some R ∧
      handleGlobPath env p = R ++ jsDrop p (jsLength (globBase p)) ∧
      isSymlinkOutsideBoundary (globBase p) R = false := by
  by_cases hsp : staticPrefixOf p = "" ∨ staticPrefixOf p = "/"
  · left
    rw [handleGlobPath, if_pos hsp]
  · cases hrp : env.realpath (globBase p) with
    | none =>
      left
      rw [handleGlobPath, if_neg hsp, hrp]
    | some R =>
      by_cases hb : isSymlinkOutsideBoundary (globBase p) R = false
      · refine Or.inr ⟨R, rfl, ?_, hb⟩
        rw [handleGlobPath, if_neg hsp, hrp]
        simp [hb]
      · left
        simp only [Bool.not_eq_false] at hb
        rw [handleGlobPath, if_neg hsp, hrp]
        simp [hb]

/-- Claim C1, amended: for every user-supplied path `P`, with `P̂` its
tilde/working-directory expansion, the normalizer's output `N(P)` is either
`P̂` itself (resolution unavailable or rejected), or — for glob-free `P̂` —
an accepted resolution whose normalized form equals normalized `P̂`, its
macOS private-prefixed form, or a strict descendant of one of those (and is
then not `/`, not single-segment, and not a proper ancestor of normalized
`P̂` or of its private form); for a glob `P̂` the same boundary relation
holds for the resolution of the static-prefix base directory, onto which
the glob remainder is spliced back. -/
theorem normalizePathForSandbox_boundary (env : PathEnv) (P : String) :
    normalizePathForSandbox env P = getNormalizedPath env P ∨
    (containsGlobChars (getNormalizedPath env P) = false ∧
      boundaryAccept (jsNormalize (getNormalizedPath env P))
        (jsNormalize (normalizePathForSandbox env P))) ∨
    (containsGlobChars (getNormalizedPath env P) = true ∧
      ∃ R : String,
        env.realpath (globBase (getNormalizedPath env P)) = some R ∧
        normalizePathForSandbox env P =
          R ++ jsDrop (getNormalizedPath env P)
            (jsLength (globBase (getNormalizedPath env P))) ∧
        boundaryAccept (jsNormalize (globBase (getNormalizedPath env P)))
          (jsNormalize R)) := by
  by_cases hglob : containsGlobChars (getNormalizedPath env P) = true
  · have hval : normalizePathForSandbox env P =
        handleGlobPath env (getNormalizedPath env P) := by
      rw [normalizePathForSandbox, if_pos hglob]
    rcases handleGlobPath_cases env (getNormalizedPath env P) with h | ⟨R, hrp, hv, hb⟩
    · exact Or.inl (hval.trans h)
    · exact Or.inr (Or.inr ⟨hglob, R, hrp, hval.trans hv,
        boundaryAccept_of_not_outside _ _ hb⟩)
  · have hval : normalizePathForSandbox env P =
        handleNonGlobPath env (getNormalizedPath env P) := by
      rw [normalizePathForSandbox, if_neg hglob]
    rcases handleNonGlobPath_cases env (getNormalizedPath env P) with h | ⟨R, hrp, hv, hb⟩
    · exact Or.inl (hval.trans h)
    · refine Or.inr (Or.inl ⟨by simpa using hglob, ?_⟩)
      rw [hval, hv]
      exact boundaryAccept_of_not_outside _ _ hb

/-- The claim C1 exactly as stated: the normalizer's output is the input
path `P` itself, its private-prefixed form, or a strict descendant of one
of those, and is never `/`, never single-segment, and never a proper
ancestor of `P`. -/
def claimC1Stated (env : PathEnv) (P : String) : Prop :=
  (normalizePathForSandbox env P = P ∨
    normalizePathForSandbox env P = normalizePrivatePath P ∨
    jsStartsWith (normalizePathForSandbox env P) (P ++ "/") = true ∨
    jsStartsWith (normalizePathForSandbox env P)
      (normalizePrivatePath P ++ "/") = true) ∧
  normalizePathForSandbox env P ≠ "/" ∧
  segCount (normalizePathForSandbox env P) ≠ 1 ∧
  jsStartsWith P (normalizePathForSandbox env P ++ "/") = false

/-- Counterexample to claim C1 as stated, with the real-path oracle being
plain path normalization (a filesystem with `/tmp` a symlink-free view
still resolves `..`): for `P = "/tmp/../etc"` the normalizer returns
`/etc`, which is neither `P`, nor its private-prefixed form, nor a
descendant of either; and for `P = "/"` the normalizer returns `/` itself,
contradicting "never `/`". -/
theorem claimC1Stated_counterexample :
    ¬ claimC1Stated ⟨"/home/u", "/cwd", fun p => some (jsNormalize p)⟩
        "/tmp/../etc" ∧
    ¬ claimC1Stated ⟨"/home/u", "/cwd", fun p => some (jsNormalize p)⟩ "/" := by
  constructor
  · simp only [claimC1Stated]
    decide
  · simp only [claimC1Stated]
    decide

/-! ## macOS profile rules (source: `profile-utils.ts` — `escapePath`,
`getAncestorDirectories`, `globToRegex`, `createRuleWithGlobSupport`,
`getTmpdirParentIfMacOSPattern` — and `profile-rules.ts` —
`generateAncestorRules`, `generateRulesForPath`, `generateMoveBlockingRules`,
`generateReadRules`, `generateWriteRules`, `getMandatoryDenyPatterns`) -/

/-- One escaped character of `JSON.stringify` for strings. -/
def jsonEscapeChar (c : Char) : List Char :=
  if c = '"' then ['\\', '"']
  else if c = '\\' then ['\\', '\\']
  else if c = '\x08' then ['\\', 'b']
  else if c = '\x0c' then ['\\', 'f']
  else if c = '\n' then ['\\', 'n']
  else if c = '\r' then ['\\', 'r']
  else if c = '\t' then ['\\', 't']
  else if c.toNat < 32 then
    ['\\', 'u', '0', '0',
      (chars "0123456789abcdef").getD (c.toNat / 16) '0',
      (chars "0123456789abcdef").getD (c.toNat % 16) '0']
  else [c]

/-- JSON escaping of character lists. -/
def escChars : List Char → List Char
  | [] => []
  | c :: t => jsonEscapeChar c ++ escChars t

/-- Embeds `escapePath` (`JSON.stringify(pathStr)`). -/
def escapePath (pathStr : String) : String :=
  "\"" ++ ofChars (escChars (chars pathStr)) ++ "\""

/-- The `while` loop of `getAncestorDirectories`, with fuel.  The
`dirname` chain shortens the string except at the terminal `.` and `/`
(and the one-step `//` case), so `length + 2` fuel is enough. -/
def ancestorsGo : Nat → String → List String
  | 0, _ => []
  | fuel + 1, current =>
    if current = "/" ∨ current = "." then []
    else
      current ::
        (if jsDirname current = current then []
          else ancestorsGo fuel (jsDirname current))

/-- Embeds `getAncestorDirectories`: the `dirname` chain above a path,
stopping before `/` (and `.`). -/
def getAncestorDirectories (pathStr : String) : List String :=
  ancestorsGo (jsLength pathStr + 2) (jsDirname pathStr)

/-- Marker the glob compiler substitutes for a leading-recursive `**/`. -/
def globstarSlashMarker : List Char := chars "__GLOBSTAR_SLASH__"

/-- Marker the glob compiler substitutes for `**`. -/
def globstarMarker : List Char := chars "__GLOBSTAR__"

/-- The first `replace` of `globToRegex`: backslash-escape the regex
metacharacters `. ^ $ + { } ( ) | \` (regex `[.^$+{}()|\\]`, replacement
`\$&`). -/
def regexEscapeStep : List Char → List Char
  | [] => []
  | c :: t =>
    (if c = '.' ∨ c = '^' ∨ c = '$' ∨ c = '+' ∨ c = '\x7b' ∨ c = '\x7d' ∨
        c = '(' ∨ c = ')' ∨ c = '|' ∨ c = '\\' then ['\\', c] else [c]) ++
      regexEscapeStep t

/-- The second `replace` of `globToRegex` (regex `\[([^\]]*?)$`,
replacement `\[$1`): backslash-escape the first `[` that has no `]`
anywhere after it; the remainder is kept verbatim. -/
def bracketFix : List Char → List Char
  | [] => []
  | c :: t =>
    if c = '[' ∧ ¬ t.contains ']' then '\\' :: '[' :: t
    else c :: bracketFix t

/-- Global left-to-right non-overlapping substring replacement (JS
`String.prototype.replace` with a `g` regex that is a plain string), with
fuel (the replaced occurrence is consumed, the replacement is not
rescanned). -/
def replaceSubGo (pat rep : List Char) : Nat → List Char → List Char
  | _, [] => []
  | 0, l => l
  | fuel + 1, c :: t =>
    if pat.isPrefixOf (c :: t) then
      rep ++ replaceSubGo pat rep fuel ((c :: t).drop pat.length)
    else c :: replaceSubGo pat rep fuel t

/-- Global substring replacement. -/
def replaceAllSub (pat rep l : List Char) : List Char :=
  replaceSubGo pat rep l.length l

/-- Embeds `globToRegex`: the six-step `replace` chain anchored in
`^`…`$`. -/
def globToRegex (globPattern : String) : String :=
  "^" ++
    ofChars
      (replaceAllSub globstarMarker (chars ".*")
        (replaceAllSub globstarSlashMarker (chars "(.*/)?")
          (replaceAllSub ['?'] (chars "[^/]")
            (replaceAllSub ['*'] (chars "[^/]*")
              (replaceAllSub (chars "**") globstarMarker
                (replaceAllSub (chars "**/") globstarSlashMarker
                  (bracketFix (regexEscapeStep (chars globPattern))))))))) ++
    "$"

/-- Embeds `createRuleWithGlobSupport`: a three-line deny/allow rule using
a `regex` clause for glob patterns and a `subpath` clause otherwise.  The
path is (re-)normalized inside, as in the source. -/
def createRuleWithGlobSupport (env : PathEnv) (pathPattern ruleType action logTag : String) :
    List String :=
  let normalizedPath := normalizePathForSandbox env pathPattern
  if containsGlobChars normalizedPath then
    ["(" ++ action ++ " " ++ ruleType,
      "  (regex " ++ escapePath (globToRegex normalizedPath) ++ ")",
      "  (with message \"" ++ logTag ++ "\"))"]
  else
    ["(" ++ action ++ " " ++ ruleType,
      "  (subpath " ++ escapePath normalizedPath ++ ")",
      "  (with message \"" ++ logTag ++ "\"))"]

/-- The three lines of one `deny file-write-unlink (literal …)` rule. -/
def denyUnlinkRule (ancestorDir logTag : String) : List String :=
  ["(deny file-write-unlink",
    "  (literal " ++ escapePath ancestorDir ++ ")",
    "  (with message \"" ++ logTag ++ "\"))"]

/-- The rule triples for a list of ancestor directories. -/
def ancestorRulesList (logTag : String) : List String → List String
  | [] => []
  | a :: t => denyUnlinkRule a logTag ++ ancestorRulesList logTag t

/-- Embeds `generateAncestorRules`. -/
def generateAncestorRules (baseDir logTag : String) : List String :=
  ancestorRulesList logTag (getAncestorDirectories baseDir)

/-- Embeds `generateRulesForPath`: the glob-aware `file-write-unlink` deny
rule for the (normalized) pattern, then — unless the static prefix is
empty or `/` — a literal deny on the base directory and on each of its
ancestors. -/
def generateRulesForPath (env : PathEnv) (pathPattern logTag : String) : List String :=
  if staticPrefixOf (normalizePathForSandbox env pathPattern) = "" ∨
      staticPrefixOf (normalizePathForSandbox env pathPattern) = "/" then
    createRuleWithGlobSupport env (normalizePathForSandbox env pathPattern)
      "file-write-unlink" "deny" logTag
  else
    createRuleWithGlobSupport env (normalizePathForSandbox env pathPattern)
        "file-write-unlink" "deny" logTag ++
      denyUnlinkRule (globBase (normalizePathForSandbox env pathPattern)) logTag ++
      generateAncestorRules (globBase (normalizePathForSandbox env pathPattern)) logTag

/-- Map a rule generator over a pattern list, concatenating the rules. -/
def flatRules (f : String → List String) : List String → List String
  | [] => []
  | p :: t => f p ++ flatRules f t

/-- Embeds `generateMoveBlockingRules`. -/
def generateMoveBlockingRules (env : PathEnv) (pathPatterns : List String)
    (logTag : String) : List String :=
  flatRules (fun p => generateRulesForPath env p logTag) pathPatterns

/-- `FsReadRestrictionConfig` from the sandbox schemas. -/
structure FsReadRestrictionConfig where
  denyOnly : List String
deriving DecidableEq

/-- `FsWriteRestrictionConfig` from the sandbox schemas. -/
structure FsWriteRestrictionConfig where
  allowOnly : List String
  denyWithinAllow : List String
deriving DecidableEq

/-- Embeds `generateReadRules`: allow all reads, deny each `denyOnly`
pattern, then the move-blocking (rename-defeating) rules. -/
def generateReadRules (env : PathEnv) (config : Option FsReadRestrictionConfig)
    (logTag : String) : List String :=
  match config with
  | none => ["(allow file-read*)"]
  | some config =>
    "(allow file-read*)" ::
      (flatRules
          (fun p => createRuleWithGlobSupport env p "file-read*" "deny" logTag)
          config.denyOnly ++
        generateMoveBlockingRules env config.denyOnly logTag)

/-- Embeds `DANGEROUS_FILES` (source: `core/security/security`): the
nine dangerous dotfiles. -/
def DANGEROUS_FILES : List String :=
  [".gitconfig", ".gitmodules", ".bashrc", ".bash_profile", ".zshrc",
    ".zprofile", ".profile", ".ripgreprc", ".mcp.json"]

/-- Embeds `DANGEROUS_DIRECTORIES` (source: `core/security/security`). -/
def DANGEROUS_DIRECTORIES : List String := [".git", ".vscode", ".idea"]

/-- Embeds `getDangerousDirectories` (source: `core/security/security`):
the dangerous directories other than `.git`, plus the sandbox
command/agent directories. -/
def getDangerousDirectories : List String :=
  DANGEROUS_DIRECTORIES.filter (fun d => d != ".git") ++
    [".vsbx/commands", ".vsbx/agents"]

/-- First-occurrence deduplication (`[...new Set(list)]`). -/
def dedupFirstGo (seen : List String) : List String → List String
  | [] => []
  | x :: t =>
    if seen.contains x then dedupFirstGo seen t
    else x :: dedupFirstGo (x :: seen) t

/-- First-occurrence deduplication of a list. -/
def dedupFirst (l : List String) : List String := dedupFirstGo [] l

/-- Embeds `getMandatoryDenyPatterns`: cwd-resolved and `**/`-glob forms of
every dangerous file and directory, `.git/hooks`, and (unless allowed)
`.git/config`, deduplicated. -/
def getMandatoryDenyPatterns (cwd : String) (allowGitConfig : Bool) : List String :=
  dedupFirst
    (flatRules (fun f => [jsResolve cwd f, "**/" ++ f]) DANGEROUS_FILES ++
      flatRules (fun d => [jsResolve cwd d, "**/" ++ d ++ "/**"])
        getDangerousDirectories ++
      [jsResolve cwd ".git/hooks", "**/.git/hooks/**"] ++
      (if allowGitConfig then []
        else [jsResolve cwd ".git/config", "**/.git/config"]))

/-- Does a string match the macOS per-user temp-dir pattern
`^\/(private\/)?var\/folders\/[^/]{2}\/[^/]+\/T\/?$`? -/
def tmpdirFoldersMatch (s : String) : Bool :=
  match chars s with
  | '/' :: rest =>
    let rest :=
      if (chars "private/").isPrefixOf rest then rest.drop 8 else rest
    if (chars "var/folders/").isPrefixOf rest then
      match rest.drop 12 with
      | a :: b :: '/' :: r3 =>
        if a ≠ '/' ∧ b ≠ '/' then
          let seg := r3.takeWhile (fun c => c ≠ '/')
          let rem := r3.drop seg.length
          decide (seg ≠ []) && (rem = chars "/T" ∨ rem = chars "/T/")
        else false
      | _ => false
    else false
  | _ => false

/-- Strip a trailing `/T` or `/T/` (regex `\/T\/?$`, replaced by `""`). -/
def stripTrailingT (s : String) : String :=
  if jsEndsWith s "/T/" then jsTake s (jsLength s - 3)
  else if jsEndsWith s "/T" then jsTake s (jsLength s - 2)
  else s

/-- Replace the first occurrence of a substring (JS `replace` with a
string pattern). -/
def replaceFirstSub (pat rep : List Char) : List Char → List Char
  | [] => []
  | c :: t =>
    if pat.isPrefixOf (c :: t) then rep ++ (c :: t).drop pat.length
    else c :: replaceFirstSub pat rep t

/-- Embeds `getTmpdirParentIfMacOSPattern`: the `TMPDIR` parent in both its
`/private/var` and `/var` spellings when `TMPDIR` matches the macOS
per-user temp pattern. -/
def getTmpdirParentIfMacOSPattern (tmpdir : Option String) : List String :=
  match tmpdir with
  | none => []
  | some tmpdir =>
    if ¬ tmpdirFoldersMatch tmpdir then []
    else
      let parent := stripTrailingT tmpdir
      if jsStartsWith parent "/private/var/" then
        [parent, ofChars (replaceFirstSub (chars "/private") [] (chars parent))]
      else if jsStartsWith parent "/var/" then [parent, "/private" ++ parent]
      else [parent]

/-- Embeds `generateTmpdirRules`. -/
def generateTmpdirRules (env : PathEnv) (tmpdir : Option String)
    (logTag : String) : List String :=
  flatRules
    (fun tmpdirParent =>
      ["(allow file-write*",
        "  (subpath " ++ escapePath (normalizePathForSandbox env tmpdirParent) ++ ")",
        "  (with message \"" ++ logTag ++ "\"))"])
    (getTmpdirParentIfMacOSPattern tmpdir)

/-- Embeds `generateWriteRules`: temp-dir allowances, allow rules for the
allow-list, deny rules for the deny-within-allow list plus the mandatory
deny set, and the move-blocking rules for the same deny set. -/
def generateWriteRules (env : PathEnv) (tmpdir : Option String)
    (config : Option FsWriteRestrictionConfig) (logTag : String)
    (allowGitConfig : Bool) : List String :=
  match config with
  | none => ["(allow file-write*)"]
  | some config =>
    generateTmpdirRules env tmpdir logTag ++
      flatRules
        (fun p => createRuleWithGlobSupport env p "file-write*" "allow" logTag)
        config.allowOnly ++
      flatRules
        (fun p => createRuleWithGlobSupport env p "file-write*" "deny" logTag)
        (config.denyWithinAllow ++ getMandatoryDenyPatterns env.cwd allowGitConfig) ++
      generateMoveBlockingRules env
        (config.denyWithinAllow ++ getMandatoryDenyPatterns env.cwd allowGitConfig)
        logTag

/-- The first element surviving `dropWhile` fails the predicate. -/
theorem dropWhile_head_false {α : Type} (p : α → Bool) :
    ∀ (l : List α) (a : α) (rest : List α),
      l.dropWhile p = a :: rest → p a = false := by
  intro l
  induction l with
  | nil =>
    intro a rest h
    simp [List.dropWhile] at h
  | cons x xs ih =>
    intro a rest h
    rw [List.dropWhile_cons] at h
    by_cases hx : p x = true
    · rw [if_pos hx] at h
      exact ih a rest h
    · rw [if_neg hx] at h
      injection h with h1 _
      rw [← h1]
      exact Bool.eq_false_iff.mpr hx

/-- `dropWhile` never lengthens a list. -/
theorem dropWhile_length_le {α : Type} (p : α → Bool) (l : List α) :
    (l.dropWhile p).length ≤ l.length := by
  induction l with
  | nil => simp [List.dropWhile]
  | cons x xs ih =>
    rw [List.dropWhile_cons]
    by_cases hx : p x = true
    · rw [if_pos hx]
      exact Nat.le_trans ih (Nat.le_succ _)
    · rw [if_neg hx]

/-- `jsDirname` yields `.`, `/`, or a strictly shorter string. -/
theorem jsDirname_len (p : String) :
    jsDirname p = "." ∨ jsDirname p = "/" ∨
      jsLength (jsDirname p) < jsLength p := by
  have hlen : jsLength p = (chars p).length := rfl
  cases hc : chars p with
  | nil =>
    left
    simp only [jsDirname, hc]
  | cons c0 t =>
    have hlenp : jsLength p = t.length + 1 := by rw [hlen, hc, List.length_cons]
    simp only [jsDirname, hc]
    set rt1 := t.reverse.dropWhile (fun c => c = '/') with hrt1
    set rt2 := rt1.dropWhile (fun c => c ≠ '/') with hrt2
    have hrt1_le : rt1.length ≤ t.length := by
      calc rt1.length ≤ t.reverse.length := dropWhile_length_le _ _
        _ = t.length := List.length_reverse t
    have hrt2_le : rt2.length ≤ rt1.length := dropWhile_length_le _ _
    by_cases he : rt2.isEmpty = true
    · rw [if_pos he]
      by_cases hr : c0 = '/'
      · right; left; simp [hr]
      · left; simp [hr]
    · rw [if_neg he]
      by_cases h2 : (c0 = '/' ∧ rt2.length = 1)
      · rw [if_pos h2]
        right; right
        -- rt1 is nonempty and starts with a non-slash, so rt2 is a proper
        -- suffix of rt1; with rt2.length = 1 this forces t.length ≥ 2
        cases hr1 : rt1 with
        | nil =>
          rw [hr1] at hrt2
          simp [List.dropWhile] at hrt2
          rw [hrt2] at he
          simp at he
        | cons a rest =>
          have ha : (fun c => decide (c = '/')) a = false :=
            dropWhile_head_false _ t.reverse a rest hr1
          have ha' : (a = '/') = False := by simpa using ha
          have hstep : rt2 = rest.dropWhile (fun c => c ≠ '/') := by
            rw [hrt2, hr1, List.dropWhile_cons, if_pos (by simp [ha'])]
          have : rt2.length ≤ rest.length := hstep ▸ dropWhile_length_le _ _
          have hrest : rest.length + 1 = rt1.length := by rw [hr1]; rfl
          have ht2 : 2 ≤ t.length := by omega
          have : jsLength "//" = 2 := rfl
          omega
      · rw [if_neg h2]
        right; right
        have : jsLength (ofChars ((c0 :: t).take rt2.length)) =
            min rt2.length (t.length + 1) := by
          simp [jsLength, chars_ofChars, List.length_take]
        omega

/-- `ancestorsGo` on the stop values is empty. -/
theorem ancestorsGo_stop (k : Nat) (current : String)
    (h : current = "/" ∨ current = ".") (hk : 1 ≤ k) :
    ancestorsGo k current = [] := by
  cases k with
  | zero => omega
  | succ k => rw [ancestorsGo, if_pos h]

/-- With at least `length + 2` fuel, the fuel does not matter: the
`dirname` chain has stabilized. -/
theorem ancestorsGo_stable (f : Nat) :
    ∀ (g : Nat) (current : String),
      jsLength current + 2 ≤ f → jsLength current + 2 ≤ g →
      ancestorsGo f current = ancestorsGo g current := by
  induction f using Nat.strong_induction_on with
  | _ f ih =>
    intro g current hf hg
    cases f with
    | zero => omega
    | succ f1 =>
      cases g with
      | zero => omega
      | succ g1 =>
        rw [ancestorsGo, ancestorsGo]
        by_cases hstop : current = "/" ∨ current = "."
        · rw [if_pos hstop, if_pos hstop]
        · rw [if_neg hstop, if_neg hstop]
          by_cases hd : jsDirname current = current
          · rw [if_pos hd, if_pos hd]
          · rw [if_neg hd, if_neg hd]
            rcases jsDirname_len current with h | h | h
            · rw [h, ancestorsGo_stop f1 "." (Or.inr rfl) (by omega),
                ancestorsGo_stop g1 "." (Or.inr rfl) (by omega)]
            · rw [h, ancestorsGo_stop f1 "/" (Or.inl rfl) (by omega),
                ancestorsGo_stop g1 "/" (Or.inl rfl) (by omega)]
            · exact congrArg _
                (ih f1 (Nat.lt_succ_self f1) g1 (jsDirname current)
                  (by omega) (by omega))

@[simp] theorem ofChars_append (l₁ l₂ : List Char) :
    ofChars (l₁ ++ l₂) = ofChars l₁ ++ ofChars l₂ := rfl

theorem chars_inj {s t : String} (h : chars s = chars t) : s = t := by
  have := congrArg ofChars h
  simpa using this

theorem length_pos_of_ne_empty {s : String} (h : s ≠ "") : 1 ≤ jsLength s := by
  by_contra hlen
  apply h
  apply chars_inj
  have : (chars s).length = 0 := by
    have : jsLength s = (chars s).length := rfl
    omega
  simpa using List.length_eq_zero.mp this

/-- `jsDirname` never returns the empty string. -/
theorem jsDirname_ne_empty (p : String) : jsDirname p ≠ "" := by
  cases hc : chars p with
  | nil => simp [jsDirname, hc]
  | cons c0 t =>
    simp only [jsDirname, hc]
    set rt2 := (t.reverse.dropWhile (fun c => c = '/')).dropWhile (fun c => c ≠ '/') with hrt2
    by_cases he : rt2.isEmpty = true
    · rw [if_pos he]
      by_cases hr : c0 = '/' <;> simp [hr]
    · rw [if_neg he]
      by_cases h2 : (c0 = '/' ∧ rt2.length = 1)
      · rw [if_pos h2]; decide
      · rw [if_neg h2]
        intro hcontra
        have h0 : (c0 :: t).take rt2.length = [] := by
          have h1 := congrArg chars hcontra
          rw [chars_ofChars] at h1
          rw [h1]
          rfl
        have hnil : rt2 = [] := by
          rcases List.take_eq_nil_iff.mp h0 with h | h
          · exact List.length_eq_zero.mp h
          · simp at h
        rw [List.isEmpty_iff] at he
        exact he hnil

/-- Appending a trailing slash does not change the `dirname` of a nonempty
path. -/
theorem jsDirname_append_slash (B : String) (hB : chars B ≠ []) :
    jsDirname (B ++ "/") = jsDirname B := by
  cases hc : chars B with
  | nil => exact absurd hc hB
  | cons c0 t =>
    have hc' : chars (B ++ "/") = c0 :: (t ++ ['/']) := by
      rw [chars_append, hc]; rfl
    have hrev : (t ++ ['/']).reverse = '/' :: t.reverse := by
      rw [List.reverse_append]; rfl
    have hrt1 : (t ++ ['/']).reverse.dropWhile (fun c => c = '/') =
        t.reverse.dropWhile (fun c => c = '/') := by
      rw [hrev, List.dropWhile_cons, if_pos (by decide)]
    simp only [jsDirname, hc, hc', hrt1]
    set rt2 := (t.reverse.dropWhile (fun c => c = '/')).dropWhile (fun c => c ≠ '/') with hrt2
    have hrt2_le : rt2.length ≤ t.length := by
      calc rt2.length ≤ (t.reverse.dropWhile (fun c => c = '/')).length :=
            dropWhile_length_le _ _
        _ ≤ t.reverse.length := dropWhile_length_le _ _
        _ = t.length := List.length_reverse t
    by_cases he : rt2.isEmpty = true
    · rw [if_pos he, if_pos he]
    · rw [if_neg he, if_neg he]
      by_cases h2 : (c0 = '/' ∧ rt2.length = 1)
      · rw [if_pos h2, if_pos h2]
      · rw [if_neg h2, if_neg h2]
        congr 1
        show (c0 :: (t ++ ['/'])).take rt2.length = (c0 :: t).take rt2.length
        have : c0 :: (t ++ ['/']) = (c0 :: t) ++ ['/'] := by simp
        rw [this, List.take_append_of_le_length (by simpa using Nat.le_succ_of_le hrt2_le)]

/-- A glob-free pattern is its own static prefix. -/
theorem staticPrefixOf_of_not_glob {s : String} (h : containsGlobChars s = false) :
    staticPrefixOf s = s := by
  apply chars_inj
  rw [staticPrefixOf, chars_ofChars]
  rw [List.takeWhile_eq_self_iff]
  intro x hx
  rw [containsGlobChars] at h
  have := List.any_eq_false.mp h x hx
  simpa using this

/-- The directory whose ancestors claim C3 speaks about: the pattern
itself when glob-free, its static prefix otherwise. -/
def claimAncestorRoot (nd : String) : String :=
  if containsGlobChars nd then staticPrefixOf nd else nd

theorem claimAncestorRoot_eq (nd : String) :
    claimAncestorRoot nd = staticPrefixOf nd := by
  rw [claimAncestorRoot]
  by_cases h : containsGlobChars nd = true
  · rw [if_pos h]
  · rw [if_neg h]
    exact (staticPrefixOf_of_not_glob (Bool.eq_false_iff.mpr h)).symm

/-- Every ancestor (in the `dirname`-chain sense) of a pattern's static
prefix is either the base directory the profile compiler denies literally,
or one of the ancestors it also denies. -/
theorem ancestors_covered (p A : String)
    (hA : A ∈ getAncestorDirectories (staticPrefixOf p)) :
    (¬(staticPrefixOf p = "" ∨ staticPrefixOf p = "/")) ∧
    (A = globBase p ∨ A ∈ getAncestorDirectories (globBase p)) := by
  have hsp_ne : ¬(staticPrefixOf p = "" ∨ staticPrefixOf p = "/") := by
    rintro (hsp | hsp) <;> rw [hsp] at hA
    · have h0 : getAncestorDirectories "" = [] := by decide
      rw [h0] at hA
      exact absurd hA (List.not_mem_nil A)
    · have h0 : getAncestorDirectories "/" = [] := by decide
      rw [h0] at hA
      exact absurd hA (List.not_mem_nil A)
  refine ⟨hsp_ne, ?_⟩
  rw [not_or] at hsp_ne
  obtain ⟨hne, hnslash⟩ := hsp_ne
  by_cases hsl : jsEndsWith (staticPrefixOf p) "/" = true
  · -- trailing slash: the base directory is the prefix without its slash
    right
    have hB : globBase p = jsTake (staticPrefixOf p) (jsLength (staticPrefixOf p) - 1) := by
      rw [globBase, if_pos hsl]
    -- decompose the static prefix as B ++ "/"
    obtain ⟨pre, hpre⟩ : ∃ pre, pre ++ ['/'] = chars (staticPrefixOf p) := by
      rw [jsEndsWith] at hsl
      exact List.isSuffixOf_iff_suffix.mp hsl
    have hpreTake : chars (globBase p) = pre := by
      rw [hB, jsTake]
      rw [chars_ofChars]
      rw [← hpre]
      have hlen : jsLength (staticPrefixOf p) = pre.length + 1 := by
        rw [jsLength, ← hpre, List.length_append]
        rfl
      rw [hlen]
      simp [List.take_left' rfl]
    have hBne : chars (globBase p) ≠ [] := by
      rw [hpreTake]
      intro hnil
      apply hnslash
      apply chars_inj
      rw [← hpre, hnil]
      rfl
    have hsp_eq : staticPrefixOf p = globBase p ++ "/" := by
      apply chars_inj
      rw [chars_append, hpreTake, ← hpre]
      rfl
    have hdir : jsDirname (staticPrefixOf p) = jsDirname (globBase p) := by
      rw [hsp_eq]
      exact jsDirname_append_slash _ hBne
    rw [getAncestorDirectories, hdir] at hA
    rw [getAncestorDirectories]
    have hdlen : jsLength (jsDirname (globBase p)) ≤ jsLength (globBase p) := by
      rcases jsDirname_len (globBase p) with h | h | h
      · rw [h]
        exact length_pos_of_ne_empty (fun hh => hBne (by rw [hh]; rfl))
      · rw [h]
        exact length_pos_of_ne_empty (fun hh => hBne (by rw [hh]; rfl))
      · omega
    have hBlen : jsLength (globBase p) ≤ jsLength (staticPrefixOf p) := by
      rw [jsLength, jsLength, hpreTake, ← hpre, List.length_append]
      simp
    rw [ancestorsGo_stable _ (jsLength (globBase p) + 2) (jsDirname (globBase p))
      (by omega) (by omega)] at hA
    exact hA
  · -- no trailing slash: the base directory is the dirname of the prefix
    have hB : globBase p = jsDirname (staticPrefixOf p) := by
      rw [globBase, if_neg hsl]
    rw [getAncestorDirectories] at hA
    have hfuel : jsLength (staticPrefixOf p) + 2 = (jsLength (staticPrefixOf p) + 1) + 1 := rfl
    rw [hfuel, ancestorsGo] at hA
    by_cases hstop : jsDirname (staticPrefixOf p) = "/" ∨ jsDirname (staticPrefixOf p) = "."
    · rw [if_pos hstop] at hA
      exact absurd hA (List.not_mem_nil A)
    · rw [if_neg hstop] at hA
      rcases List.mem_cons.mp hA with rfl | hA'
      · left
        exact hB.symm
      · right
        by_cases hfix : jsDirname (jsDirname (staticPrefixOf p)) = jsDirname (staticPrefixOf p)
        · rw [if_pos hfix] at hA'
          exact absurd hA' (List.not_mem_nil A)
        · rw [if_neg hfix] at hA'
          have hBlt : jsLength (jsDirname (staticPrefixOf p)) < jsLength (staticPrefixOf p) := by
            rcases jsDirname_len (staticPrefixOf p) with h | h | h
            · exact absurd (Or.inr h) hstop
            · exact absurd (Or.inl h) hstop
            · exact h
          have hdd : jsLength (jsDirname (jsDirname (staticPrefixOf p))) ≤
              jsLength (jsDirname (staticPrefixOf p)) := by
            rcases jsDirname_len (jsDirname (staticPrefixOf p)) with h | h | h
            · rw [h]
              exact length_pos_of_ne_empty (jsDirname_ne_empty _)
            · rw [h]
              exact length_pos_of_ne_empty (jsDirname_ne_empty _)
            · omega
          rw [ancestorsGo_stable _ (jsLength (jsDirname (staticPrefixOf p)) + 2)
            (jsDirname (jsDirname (staticPrefixOf p))) (by omega) (by omega)] at hA'
          rw [hB, getAncestorDirectories]
          exact hA'

/-- The profile (a list of lines) contains the given block of consecutive
lines. -/
def rulesContain (profile block : List String) : Prop :=
  ∃ s t : List String, profile = s ++ (block ++ t)

theorem rulesContain_self (block rest : List String) :
    rulesContain (block ++ rest) block :=
  ⟨[], rest, rfl⟩

theorem rulesContain_append_left {profile block : List String}
    (q : List String) (h : rulesContain profile block) :
    rulesContain (q ++ profile) block := by
  obtain ⟨s, t, rfl⟩ := h
  exact ⟨q ++ s, t, by rw [List.append_assoc]⟩

theorem rulesContain_append_right {profile block : List String}
    (q : List String) (h : rulesContain profile block) :
    rulesContain (profile ++ q) block := by
  obtain ⟨s, t, rfl⟩ := h
  exact ⟨s, t ++ q, by simp⟩

theorem rulesContain_cons {profile block : List String} (x : String)
    (h : rulesContain profile block) : rulesContain (x :: profile) block :=
  rulesContain_append_left [x] h

/-- Each ancestor in the list gets its literal deny triple. -/
theorem ancestorRulesList_contain (logTag A : String) :
    ∀ ancs : List String, A ∈ ancs →
      rulesContain (ancestorRulesList logTag ancs) (denyUnlinkRule A logTag) := by
  intro ancs
  induction ancs with
  | nil => intro h; exact absurd h (List.not_mem_nil A)
  | cons a t ih =>
    intro h
    rcases List.mem_cons.mp h with rfl | h'
    · rw [ancestorRulesList]
      exact rulesContain_self _ _
    · rw [ancestorRulesList]
      exact rulesContain_append_left _ (ih h')

/-- A block contained in the rules of one listed pattern is contained in
the flattened rules. -/
theorem flatRules_contain (f : String → List String) (block : List String)
    (D : String) :
    ∀ patterns : List String, D ∈ patterns → rulesContain (f D) block →
      rulesContain (flatRules f patterns) block := by
  intro patterns
  induction patterns with
  | nil => intro h; exact absurd h (List.not_mem_nil D)
  | cons p t ih =>
    intro h hD
    rcases List.mem_cons.mp h with rfl | h'
    · rw [flatRules]
      obtain ⟨s, u, hsu⟩ := hD
      exact ⟨s, u ++ flatRules f t, by rw [hsu]; simp⟩
    · rw [flatRules]
      exact rulesContain_append_left _ (ih h' hD)

/-- The move-blocking rules for one pattern contain the literal
`file-write-unlink` deny for every claim-side ancestor. -/
theorem generateRulesForPath_contain (env : PathEnv) (D logTag A : String)
    (hA : A ∈ getAncestorDirectories
      (claimAncestorRoot (normalizePathForSandbox env D))) :
    rulesContain (generateRulesForPath env D logTag) (denyUnlinkRule A logTag) := by
  rw [claimAncestorRoot_eq] at hA
  obtain ⟨hne, hcov⟩ := ancestors_covered (normalizePathForSandbox env D) A hA
  rw [generateRulesForPath, if_neg hne]
  rcases hcov with rfl | hmem
  · refine ⟨createRuleWithGlobSupport env (normalizePathForSandbox env D)
      "file-write-unlink" "deny" logTag,
      generateAncestorRules (globBase (normalizePathForSandbox env D)) logTag, ?_⟩
    rw [List.append_assoc]
  · apply rulesContain_append_left
    rw [generateAncestorRules]
    exact ancestorRulesList_contain logTag A _ hmem

/-- Claim C3: for every pattern `D` the compiled profile denies (a
`deny_read` path, a `deny_within_allow` path, or a mandatory-deny path),
the profile contains a `deny file-write-unlink` rule for every ancestor
directory of (the normalized) `D` up to but not including `/` — for glob
patterns, of the pattern's static prefix. -/
theorem profile_denies_ancestors (env : PathEnv) (tmpdir : Option String)
    (readConfig : FsReadRestrictionConfig) (writeConfig : FsWriteRestrictionConfig)
    (allowGitConfig : Bool) (logTag D A : String) :
    (D ∈ readConfig.denyOnly →
      A ∈ getAncestorDirectories
        (claimAncestorRoot (normalizePathForSandbox env D)) →
      rulesContain (generateReadRules env (some readConfig) logTag)
        (denyUnlinkRule A logTag)) ∧
    (D ∈ writeConfig.denyWithinAllow ++
        getMandatoryDenyPatterns env.cwd allowGitConfig →
      A ∈ getAncestorDirectories
        (claimAncestorRoot (normalizePathForSandbox env D)) →
      rulesContain
        (generateWriteRules env tmpdir (some writeConfig) logTag allowGitConfig)
        (denyUnlinkRule A logTag)) := by
  constructor
  · intro hD hA
    rw [generateReadRules]
    apply rulesContain_cons
    apply rulesContain_append_left
    rw [generateMoveBlockingRules]
    exact flatRules_contain _ _ D readConfig.denyOnly hD
      (generateRulesForPath_contain env D logTag A hA)
  · intro hD hA
    rw [generateWriteRules]
    apply rulesContain_append_left
    rw [generateMoveBlockingRules]
    exact flatRules_contain _ _ D _ hD
      (generateRulesForPath_contain env D logTag A hA)

/-- Witness for C3 at concrete inputs: for the deny-read path `/a/b/c` the
profile carries the literal unlink-deny for the ancestor `/a`, and for the
mandatory-deny path `/cwd/.gitconfig` the write profile carries the
literal unlink-deny for the ancestor `/cwd`. -/
theorem profile_denies_ancestors_witness :
    rulesContain
      (generateReadRules ⟨"/h", "/cwd", fun _ => none⟩
        (some ⟨["/a/b/c"]⟩) "TAG")
      (denyUnlinkRule "/a" "TAG") ∧
    rulesContain
      (generateWriteRules ⟨"/h", "/cwd", fun _ => none⟩ none
        (some ⟨[], []⟩) "TAG" false)
      (denyUnlinkRule "/cwd" "TAG") :=
  ⟨(profile_denies_ancestors ⟨"/h", "/cwd", fun _ => none⟩ none
      ⟨["/a/b/c"]⟩ ⟨[], []⟩ false "TAG" "/a/b/c" "/a").1
      (by decide) (by decide),
    (profile_denies_ancestors ⟨"/h", "/cwd", fun _ => none⟩ none
      ⟨["/a/b/c"]⟩ ⟨[], []⟩ false "TAG" "/cwd/.gitconfig" "/cwd").2
      (by decide) (by decide)⟩

/-! ## Wrapper configuration merge (source: `sandbox-wrapper.ts` —
`buildConfigs`, `getMacOSOptions`/`getLinuxOptions` proxy-port gating —
and `env-utils.ts` — `getDefaultWritePaths`) -/

/-- JS nullish coalescing `a ?? b`. -/
def jsNullish {α : Type} (a b : Option α) : Option α :=
  match a with
  | some x => some x
  | none => b

/-- The network slice of a (possibly partial) `SandboxRuntimeConfig` as the
wrapper reads it.  `allowedDomains` is an `Option` because the code probes
`?.allowedDomains !== undefined`. -/
structure NetworkConfigJS where
  allowedDomains : Option (List String)
deriving DecidableEq

/-- The filesystem slice of a (possibly partial) config. -/
structure FilesystemConfigJS where
  denyRead : Option (List String)
  allowWrite : Option (List String)
  denyWrite : Option (List String)
deriving DecidableEq

/-- A (possibly partial) `SandboxRuntimeConfig` as the wrapper reads it. -/
structure SandboxConfigJS where
  network : Option NetworkConfigJS
  filesystem : Option FilesystemConfigJS
  allowPty : Option Bool
deriving DecidableEq

/-- Embeds `getDefaultWritePaths` (the hardwired safe-write paths; `join`
on a clean absolute home directory is plain concatenation). -/
def getDefaultWritePaths (home : String) : List String :=
  ["/dev/stdout", "/dev/stderr", "/dev/null", "/dev/tty", "/dev/dtracehelper",
    "/dev/autofs_nowait", "/tmp/vsbx", "/private/tmp/vsbx",
    home ++ "/.npm/_logs", home ++ "/.vsbx/debug"]

/-- The result record of `buildConfigs`. -/
structure BuildConfigsResult where
  writeConfig : FsWriteRestrictionConfig
  readConfig : FsReadRestrictionConfig
  needsNetworkRestriction : Bool
  needsNetworkProxy : Bool
deriving DecidableEq

/-- The custom config's `allowedDomains` as the optional chain
`customConfig?.network?.allowedDomains` sees it. -/
def chainAllowedDomains (config : Option SandboxConfigJS) : Option (List String) :=
  (config.bind (fun c => c.network)).bind (fun n => n.allowedDomains)

/-- Embeds `buildConfigs`: the per-subkey `??` merge of the custom config
over the manager-state config, the presence test for `allowedDomains`, and
the two derived network flags. -/
def buildConfigs (home : String) (stateConfig customConfig : Option SandboxConfigJS) :
    BuildConfigsResult :=
  let userAllowWrite :=
    (jsNullish ((customConfig.bind (fun c => c.filesystem)).bind (fun f => f.allowWrite))
      ((stateConfig.bind (fun c => c.filesystem)).bind (fun f => f.allowWrite))).getD []
  let writeConfig : FsWriteRestrictionConfig :=
    { allowOnly := getDefaultWritePaths home ++ userAllowWrite,
      denyWithinAllow :=
        (jsNullish ((customConfig.bind (fun c => c.filesystem)).bind (fun f => f.denyWrite))
          ((stateConfig.bind (fun c => c.filesystem)).bind (fun f => f.denyWrite))).getD [] }
  let readConfig : FsReadRestrictionConfig :=
    { denyOnly :=
        (jsNullish ((customConfig.bind (fun c => c.filesystem)).bind (fun f => f.denyRead))
          ((stateConfig.bind (fun c => c.filesystem)).bind (fun f => f.denyRead))).getD [] }
  let hasNetworkConfig :=
    (chainAllowedDomains customConfig).isSome || (chainAllowedDomains stateConfig).isSome
  let allowedDomains :=
    (jsNullish (chainAllowedDomains customConfig) (chainAllowedDomains stateConfig)).getD []
  { writeConfig := writeConfig, readConfig := readConfig,
    needsNetworkRestriction := hasNetworkConfig,
    needsNetworkProxy := decide (allowedDomains.length > 0) }

/-- The proxy-port slice of the `ManagerContext`. -/
structure ManagerProxyContext where
  httpProxyPort : Option Nat
  socksProxyPort : Option Nat
deriving DecidableEq

/-- The proxy ports `getMacOSOptions` passes on: the manager's ports when
`needsNetworkProxy` holds, `undefined` otherwise (the other option fields
are irrelevant to this claim and omitted). -/
def macosProxyPorts (ctx : Option ManagerProxyContext) (needsNetworkProxy : Bool) :
    Option Nat × Option Nat :=
  (if needsNetworkProxy then ctx.bind (fun c => c.httpProxyPort) else none,
    if needsNetworkProxy then ctx.bind (fun c => c.socksProxyPort) else none)

/-- Claim C4: network restriction is required exactly when an
`allowedDomains` field is present in the custom or the manager config (even
an empty list); an omitted custom field inherits the manager policy; and
proxy mediation is enabled only when the effective `allowedDomains` list is
non-empty, in which case alone proxy ports are passed. -/
theorem buildConfigs_network_gating (home : String)
    (stateConfig customConfig : Option SandboxConfigJS)
    (ctx : Option ManagerProxyContext) :
    ((buildConfigs home stateConfig customConfig).needsNetworkRestriction = true ↔
      ((chainAllowedDomains customConfig).isSome = true ∨
        (chainAllowedDomains stateConfig).isSome = true)) ∧
    (chainAllowedDomains customConfig = some [] →
      (buildConfigs home stateConfig customConfig).needsNetworkRestriction = true ∧
      (buildConfigs home stateConfig customConfig).needsNetworkProxy = false) ∧
    (chainAllowedDomains customConfig = none →
      (buildConfigs home stateConfig customConfig).needsNetworkRestriction =
        (chainAllowedDomains stateConfig).isSome ∧
      (buildConfigs home stateConfig customConfig).needsNetworkProxy =
        decide (((chainAllowedDomains stateConfig).getD []).length > 0)) ∧
    ((buildConfigs home stateConfig customConfig).needsNetworkProxy = true ↔
      (jsNullish (chainAllowedDomains customConfig)
        (chainAllowedDomains stateConfig)).getD [] ≠ []) ∧
    ((buildConfigs home stateConfig customConfig).needsNetworkProxy = false →
      macosProxyPorts ctx
        (buildConfigs home stateConfig customConfig).needsNetworkProxy =
        (none, none)) := by
  refine ⟨?_, ?_, ?_, ?_, ?_⟩
  · simp [buildConfigs]
  · intro h
    simp [buildConfigs, h, jsNullish]
  · intro h
    simp [buildConfigs, h, jsNullish]
  · simp only [buildConfigs]
    constructor
    · intro h
      have := of_decide_eq_true h
      intro hnil
      rw [hnil] at this
      simp at this
    · intro h
      apply decide_eq_true
      cases hd : (jsNullish (chainAllowedDomains customConfig)
          (chainAllowedDomains stateConfig)).getD [] with
      | nil => exact absurd hd h
      | cons x xs => simp
  · intro h
    rw [macosProxyPorts, h]
    simp

/-- Witness for C4: with a custom config whose `allowedDomains` is the
empty list over a manager config allowing `x.com`, restriction is on and
proxying is off, so no ports are passed. -/
theorem buildConfigs_network_gating_witness :
    (buildConfigs "/h"
      (some ⟨some ⟨some ["x.com"]⟩, none, none⟩)
      (some ⟨some ⟨some []⟩, none, none⟩)).needsNetworkRestriction = true ∧
    (buildConfigs "/h"
      (some ⟨some ⟨some ["x.com"]⟩, none, none⟩)
      (some ⟨some ⟨some []⟩, none, none⟩)).needsNetworkProxy = false ∧
    macosProxyPorts (some ⟨some 3128, some 1080⟩)
      (buildConfigs "/h"
        (some ⟨some ⟨some ["x.com"]⟩, none, none⟩)
        (some ⟨some ⟨some []⟩, none, none⟩)).needsNetworkProxy =
      (none, none) := by
  have h := buildConfigs_network_gating "/h"
    (some ⟨some ⟨some ["x.com"]⟩, none, none⟩)
    (some ⟨some ⟨some []⟩, none, none⟩)
    (some ⟨some 3128, some 1080⟩)
  obtain ⟨h1, h2⟩ := h.2.1 (by decide)
  exact ⟨h1, h2, h.2.2.2.2 h2⟩

/-! ## HTTP proxy deny responses (source: `http-proxy.ts` —
`handleConnectRequest`, `handleHttpRequest`) -/

/-- JS `parseInt(s, 10)` restricted to the digit strings that occur in
`host:port` targets: leading digits, `none` for `NaN`. -/
def jsParseInt (s : String) : Option Nat :=
  let ds := (chars s).takeWhile (fun c => c.isDigit)
  if ds.isEmpty then none
  else some (ds.foldl (fun n c => n * 10 + (c.toNat - 48)) 0)

/-- The `req.url.split(':')` destructuring and falsiness checks of
`handleConnectRequest`: `none` is the 400 Bad Request path (`!hostname`
when the split's first part is empty, `!port` when the port is missing,
unparseable, or zero). -/
def parseConnectTarget (url : String) : Option (String × Nat) :=
  let parts := jsSplitChar url ':'
  let hostname := parts.getD 0 ""
  let port : Option Nat :=
    match parts.get? 1 with
    | none => none
    | some s => jsParseInt s
  if hostname = "" ∨ port = none ∨ port = some 0 then none
  else some (hostname, port.getD 0)

/-- The exact bytes `handleConnectRequest` writes on a denied CONNECT. -/
def connectDenyResponse : String :=
  "HTTP/1.1 403 Forbidden\r\n" ++ "Content-Type: text/plain\r\n" ++
    "X-Proxy-Error: blocked-by-allowlist\r\n" ++ "\r\n" ++
    "Connection blocked by network allowlist"

/-- Outcome of a CONNECT request at the proxy. -/
inductive ConnectOutcome where
  | badRequest
  | denied (raw : String)
  | tunnel (hostname : String) (port : Nat)
deriving DecidableEq

/-- Embeds `handleConnectRequest` (the socket writes are represented as
the outcome; the platform's request parsing is `parseConnectTarget`). -/
def handleConnectRequest (url : String) (filter : Nat → String → Bool) :
    ConnectOutcome :=
  match parseConnectTarget url with
  | none => .badRequest
  | some (hostname, port) =>
    if ¬ filter port hostname then .denied connectDenyResponse
    else .tunnel hostname port

/-- A head-and-headers-and-body HTTP response as written by
`res.writeHead`/`res.end`. -/
structure HttpResponse where
  status : Nat
  headers : List (String × String)
  body : String
deriving DecidableEq

/-- Outcome of a plain (absolute-URI) HTTP request at the proxy. -/
inductive HttpOutcome where
  | respond (r : HttpResponse)
  | forward (hostname : String) (port : Nat)
deriving DecidableEq

/-- Embeds `handleHttpRequest` after URL parsing: `hostname`, the URL's
explicit port if any, and whether the scheme is `https:` are what
`new URL(req.url)` yields. -/
def handleHttpRequest (hostname : String) (urlPort : Option Nat)
    (isHttps : Bool) (filter : Nat → String → Bool) : HttpOutcome :=
  let port :=
    match urlPort with
    | some p => p
    | none => if isHttps then 443 else 80
  if ¬ filter port hostname then
    .respond ⟨403,
      [("Content-Type", "text/plain"), ("X-Proxy-Error", "blocked-by-allowlist")],
      "Connection blocked by network allowlist"⟩
  else .forward hostname port

/-- Claim C8: a denied CONNECT is answered with the status line
`HTTP/1.1 403 Forbidden`, the `X-Proxy-Error: blocked-by-allowlist`
header, and the body `Connection blocked by network allowlist`; a denied
plain HTTP request gets the same 403 status, header, and body at the HTTP
layer. -/
theorem proxy_denied_responses (url hostname : String) (p : Nat)
    (urlPort : Option Nat) (isHttps : Bool) (filter : Nat → String → Bool) :
    (parseConnectTarget url = some (hostname, p) →
      filter p hostname = false →
      handleConnectRequest url filter = .denied connectDenyResponse ∧
      jsStartsWith connectDenyResponse "HTTP/1.1 403 Forbidden\r\n" = true ∧
      jsIncludes connectDenyResponse "X-Proxy-Error: blocked-by-allowlist\r\n" = true ∧
      jsEndsWith connectDenyResponse
        "\r\n\r\nConnection blocked by network allowlist" = true) ∧
    (filter (urlPort.getD (if isHttps then 443 else 80)) hostname = false →
      handleHttpRequest hostname urlPort isHttps filter =
        .respond ⟨403,
          [("Content-Type", "text/plain"),
            ("X-Proxy-Error", "blocked-by-allowlist")],
          "Connection blocked by network allowlist"⟩) := by
  constructor
  · intro hparse hdeny
    refine ⟨?_, by decide, by decide, by decide⟩
    rw [handleConnectRequest, hparse]
    simp [hdeny]
  · intro hdeny
    simp only [handleHttpRequest]
    cases urlPort with
    | none =>
      simp only [Option.getD] at hdeny
      simp [hdeny]
    | some q =>
      simp only [Option.getD] at hdeny
      simp [hdeny]

/-- Witness for C8: with every destination denied, a CONNECT to
`evil.com:443` gets the exact 403 response, and a plain HTTP request for
host `evil.com` (default port 80) gets the 403 response object. -/
theorem proxy_denied_responses_witness :
    handleConnectRequest "evil.com:443" (fun _ _ => false) =
      .denied connectDenyResponse ∧
    handleHttpRequest "evil.com" none false (fun _ _ => false) =
      .respond ⟨403,
        [("Content-Type", "text/plain"),
          ("X-Proxy-Error", "blocked-by-allowlist")],
        "Connection blocked by network allowlist"⟩ :=
  ⟨((proxy_denied_responses "evil.com:443" "evil.com" 443 none false
      (fun _ _ => false)).1 (by decide) rfl).1,
    (proxy_denied_responses "evil.com:443" "evil.com" 443 none false
      (fun _ _ => false)).2 rfl⟩

/-! ## Shell quoting (source: `shell-quote.ts`) and the Linux wrapper
(source: `wrapCommandWithSandboxLinux` and its helpers in the Linux
module; `generateProxyEnvVars` from `env-utils.ts`) -/

/-- The metacharacter class of `quoteDefault`
(`[#!"$&'()*,:;<=>?@[\\\]^`{|}]`). -/
def quoteMetaChar (c : Char) : Bool :=
  c = '#' ∨ c = '!' ∨ c = '"' ∨ c = '$' ∨ c = '&' ∨ c = '\'' ∨ c = '(' ∨
    c = ')' ∨ c = '*' ∨ c = ',' ∨ c = ':' ∨ c = ';' ∨ c = '<' ∨ c = '=' ∨
    c = '>' ∨ c = '?' ∨ c = '@' ∨ c = '[' ∨ c = '\\' ∨ c = ']' ∨ c = '^' ∨
    c = Char.ofNat 96 ∨ c = '\x7b' ∨ c = '|' ∨ c = '\x7d'

/-- ASCII letter test (`[A-Za-z]`). -/
def isAsciiLetter (c : Char) : Bool :=
  ('A' ≤ c ∧ c ≤ 'Z') ∨ ('a' ≤ c ∧ c ≤ 'z')

/-- JS `\s` on the ASCII range. -/
def jsWhitespace (c : Char) : Bool :=
  c = ' ' ∨ c = '\t' ∨ c = '\n' ∨ c = '\r' ∨ c = '\x0b' ∨ c = '\x0c'

/-- The scan of `quoteDefault`'s global replace
(`/([A-Za-z]:)?([…])/g` → `$1\$2`): a metacharacter is backslash-escaped,
except that a `letter:`-prefix match consumes the drive-like prefix
unescaped. -/
def quoteDefaultGo : List Char → List Char
  | [] => []
  | [c] => if quoteMetaChar c then ['\\', c] else [c]
  | [c, d] => (if quoteMetaChar c then ['\\', c] else [c]) ++ quoteDefaultGo [d]
  | c :: d :: m :: rest =>
    if isAsciiLetter c ∧ d = ':' ∧ quoteMetaChar m then
      c :: ':' :: '\\' :: m :: quoteDefaultGo rest
    else (if quoteMetaChar c then ['\\', c] else [c]) ++ quoteDefaultGo (d :: m :: rest)

/-- `quoteSingle`'s inner escaping (`/(')/g` → `\$1`). -/
def escSingle : List Char → List Char
  | [] => []
  | c :: t => (if c = '\'' then ['\\', '\''] else [c]) ++ escSingle t

/-- `quoteDouble`'s inner escaping (`/(["\\$`!])/g` → `\$1`). -/
def escDouble : List Char → List Char
  | [] => []
  | c :: t =>
    (if c = '"' ∨ c = '\\' ∨ c = '$' ∨ c = Char.ofNat 96 ∨ c = '!' then
        ['\\', c]
      else [c]) ++ escDouble t

/-- Embeds `quoteArg` for string tokens (the structured-operator variant is
not used by the sandbox wrapper). -/
def quoteArg (s : String) : String :=
  if s = "" then "''"
  else if ((chars s).any (fun c => c = '"' ∨ jsWhitespace c ∨ c = '\\')) ∧
      ¬((chars s).any (fun c => c = '\'')) then
    "'" ++ ofChars (escSingle (chars s)) ++ "'"
  else if (chars s).any (fun c => c = '"' ∨ c = '\'' ∨ jsWhitespace c) then
    "\"" ++ ofChars (escDouble (chars s)) ++ "\""
  else ofChars (quoteDefaultGo (chars s))

/-- Embeds `shellquote` (`args.map(quoteArg).join(' ')`). -/
def shellquote : List String → String
  | [] => ""
  | [a] => quoteArg a
  | a :: b :: rest => quoteArg a ++ " " ++ shellquote (b :: rest)

/-- JS `array.join('\n')`. -/
def joinLines : List String → String
  | [] => ""
  | [a] => a
  | a :: b :: rest => a ++ "\n" ++ joinLines (b :: rest)

/-- Embeds `generateProxyEnvVars` (`isMacOS` stands for the
`getPlatform() === 'macos'` probe; the Linux wrapper calls it on Linux with
ports 3128/1080). -/
def generateProxyEnvVars (isMacOS : Bool) (httpProxyPort socksProxyPort : Option Nat) :
    List String :=
  let envVars := ["SANDBOX=1", "TMPDIR=/tmp/vsbx"]
  let httpTruthy := ¬(httpProxyPort = none ∨ httpProxyPort = some 0)
  let socksTruthy := ¬(socksProxyPort = none ∨ socksProxyPort = some 0)
  if ¬httpTruthy ∧ ¬socksTruthy then envVars
  else
    let noProxyAddresses :=
      "localhost,127.0.0.1,::1,*.local,.local,169.254.0.0/16,10.0.0.0/8,172.16.0.0/12,192.168.0.0/16"
    let envVars := envVars ++
      ["NO_PROXY=" ++ noProxyAddresses, "no_proxy=" ++ noProxyAddresses]
    let envVars := envVars ++
      (if httpTruthy then
        let httpProxy := "http://localhost:" ++ toString (httpProxyPort.getD 0)
        ["HTTP_PROXY=" ++ httpProxy, "HTTPS_PROXY=" ++ httpProxy,
          "http_proxy=" ++ httpProxy, "https_proxy=" ++ httpProxy]
      else [])
    envVars ++
      (if socksTruthy then
        let socksProxy := "socks5h://localhost:" ++ toString (socksProxyPort.getD 0)
        ["ALL_PROXY=" ++ socksProxy, "all_proxy=" ++ socksProxy] ++
          (if isMacOS then
            ["GIT_SSH_COMMAND=ssh -o ProxyCommand='nc -X 5 -x localhost:" ++
              toString (socksProxyPort.getD 0) ++ " %h %p'"]
          else []) ++
          ["FTP_PROXY=" ++ socksProxy, "ftp_proxy=" ++ socksProxy,
            "RSYNC_PROXY=localhost:" ++ toString (socksProxyPort.getD 0),
            "GRPC_PROXY=" ++ socksProxy, "grpc_proxy=" ++ socksProxy] ++
          (if httpTruthy then
            let httpProxy := "http://localhost:" ++ toString (httpProxyPort.getD 0)
            ["DOCKER_HTTP_PROXY=" ++ httpProxy, "DOCKER_HTTPS_PROXY=" ++ httpProxy]
          else [])
      else [])

/-- Split `NAME=value` at the first `=` into `--setenv NAME value`
(the `flatMap` in `addProxyEnvVars`). -/
def setenvArgsOf (env : String) : List String :=
  let idx := ((chars env).takeWhile (fun c => c ≠ '=')).length
  ["--setenv", jsTake env idx, jsDrop env (idx + 1)]

/-- JS truthiness of an optional string (`undefined` and `""` are falsy). -/
def optTruthy (o : Option String) : Bool :=
  match o with
  | none => false
  | some s => s ≠ ""

/-- The effectful inputs of the Linux wrapper: the seccomp artifacts, the
filesystem argument builder's result (`none` models a thrown error), the
shell resolver, and Unix-socket existence. -/
structure LinuxWrapEnv where
  seccompFilter : Option String
  applySeccompBinary : Option String
  fsArgs : Option (List String)
  whichShell : String → Option String
  socketExists : String → Bool

/-- The parameters of `wrapCommandWithSandboxLinux` (the fields that only
feed the filesystem argument builder — ripgrep config, scan depth,
`allowGitConfig`, abort signal — are folded into `LinuxWrapEnv.fsArgs`). -/
structure LinuxSandboxParams where
  command : String
  needsNetworkRestriction : Bool
  httpSocketPath : Option String
  socksSocketPath : Option String
  httpProxyPort : Option Nat
  socksProxyPort : Option Nat
  readConfig : Option FsReadRestrictionConfig
  writeConfig : Option FsWriteRestrictionConfig
  enableWeakerNestedSandbox : Option Bool
  allowAllUnixSockets : Option Bool
  binShell : Option String

/-- Embeds `handleSeccomp` (cleanup-handler registration is an effect with
no bearing on the produced command). -/
def handleSeccomp (env : LinuxWrapEnv) (allowAllUnixSockets : Bool) : Option String :=
  if allowAllUnixSockets then none else env.seccompFilter

/-- Embeds `addProxyEnvVars` + `handleNetworkRestriction` as the network
slice of the argument vector (or the thrown error). -/
def buildNetArgs (env : LinuxWrapEnv) (params : LinuxSandboxParams) :
    Except String (List String) :=
  if ¬params.needsNetworkRestriction then .ok []
  else
    if optTruthy params.httpSocketPath ∧ optTruthy params.socksSocketPath then
      let h := params.httpSocketPath.getD ""
      let s := params.socksSocketPath.getD ""
      if ¬env.socketExists h then
        .error ("Linux HTTP bridge socket does not exist: " ++ h)
      else if ¬env.socketExists s then
        .error ("Linux SOCKS bridge socket does not exist: " ++ s)
      else
        .ok (["--unshare-net"] ++ ["--bind", h, h, "--bind", s, s] ++
          flatRules setenvArgsOf (generateProxyEnvVars false (some 3128) (some 1080)) ++
          (match params.httpProxyPort with
            | some p => ["--setenv", "AV_HOST_HTTP_PROXY_PORT", toString p]
            | none => []) ++
          (match params.socksProxyPort with
            | some p => ["--setenv", "AV_HOST_SOCKS_PROXY_PORT", toString p]
            | none => []))
    else .ok ["--unshare-net"]

/-- Embeds `buildSandboxCommand`: the socat relays, the EXIT trap, and the
user command (under the seccomp applier when available), joined into a
`shell -c <quoted script>` string. -/
def buildSandboxCommand (env : LinuxWrapEnv)
    (httpSocketPath socksSocketPath userCommand : String)
    (seccompFilterPath : Option String) (shell : String) :
    Except String String :=
  let socatCommands :=
    ["socat TCP-LISTEN:3128,fork,reuseaddr UNIX-CONNECT:" ++ httpSocketPath ++
        " >/dev/null 2>&1 &",
      "socat TCP-LISTEN:1080,fork,reuseaddr UNIX-CONNECT:" ++ socksSocketPath ++
        " >/dev/null 2>&1 &",
      "trap \"kill %1 %2 2>/dev/null; exit\" EXIT"]
  match seccompFilterPath with
  | some path =>
    match env.applySeccompBinary with
    | none => .error "apply-seccomp binary not found. Ensure dist/vendor/seccomp binaries are included."
    | some bin =>
      let applySeccompCmd := shellquote [bin, path, shell, "-c", userCommand]
      .ok (shell ++ " -c " ++ shellquote [joinLines (socatCommands ++ [applySeccompCmd])])
  | none =>
    .ok (shell ++ " -c " ++
      shellquote [joinLines (socatCommands ++ ["eval " ++ shellquote [userCommand]])])

/-- Embeds `getShell`: default to `bash`, resolve through `which`. -/
def getShell (env : LinuxWrapEnv) (binShell : Option String) : Except String String :=
  let b :=
    match binShell with
    | none => "bash"
    | some s => if s = "" then "bash" else s
  match env.whichShell b with
  | none => .error ("Shell '" ++ b ++ "' not found in PATH")
  | some p => .ok p

/-- Embeds `buildFinalCommand`'s last pushed argument: the inner script
with relays when network is mediated, else the seccomp-applied command,
else the raw command. -/
def buildFinalArg (env : LinuxWrapEnv) (params : LinuxSandboxParams)
    (seccompFilterPath : Option String) (shell : String) :
    Except String String :=
  if params.needsNetworkRestriction ∧ optTruthy params.httpSocketPath ∧
      optTruthy params.socksSocketPath then
    buildSandboxCommand env (params.httpSocketPath.getD "")
      (params.socksSocketPath.getD "") params.command seccompFilterPath shell
  else
    match seccompFilterPath with
    | some path =>
      match env.applySeccompBinary with
      | none => .error "apply-seccomp binary not found."
      | some bin => .ok (shellquote [bin, path, shell, "-c", params.command])
    | none => .ok params.command

/-- Embeds `wrapCommandWithSandboxLinux`: the unrestricted fast path
returns the command unchanged; otherwise the `bwrap` argument vector is
assembled and shell-quoted. -/
def wrapCommandWithSandboxLinux (env : LinuxWrapEnv) (params : LinuxSandboxParams) :
    Except String String :=
  if ¬params.needsNetworkRestriction ∧
      ¬(match params.readConfig with
        | some rc => decide (rc.denyOnly ≠ [])
        | none => false) = true ∧
      ¬params.writeConfig.isSome = true then
    .ok params.command
  else
    match buildNetArgs env params with
    | .error e => .error e
    | .ok netArgs =>
      match env.fsArgs with
      | none => .error "filesystem argument generation failed"
      | some fsArgs =>
        match getShell env params.binShell with
        | .error e => .error e
        | .ok shell =>
          match buildFinalArg env params
              (handleSeccomp env (params.allowAllUnixSockets.getD false)) shell with
          | .error e => .error e
          | .ok finalArg =>
            .ok (shellquote ("bwrap" ::
              (["--new-session", "--die-with-parent"] ++ netArgs ++ fsArgs ++
                ["--dev", "/dev", "--unshare-pid"] ++
                (if ¬(params.enableWeakerNestedSandbox.getD false) then
                  ["--proc", "/proc"]
                else []) ++
                ["--", shell, "-c", finalArg])))

theorem jsLength_append (s t : String) : jsLength (s ++ t) = jsLength s + jsLength t := by
  simp [jsLength, chars_append]

theorem escSingle_len (l : List Char) : l.length ≤ (escSingle l).length := by
  induction l with
  | nil => simp [escSingle]
  | cons c t ih =>
    rw [escSingle]
    simp only [List.length_cons, List.length_append]
    split <;> simp <;> omega

theorem escDouble_len (l : List Char) : l.length ≤ (escDouble l).length := by
  induction l with
  | nil => simp [escDouble]
  | cons c t ih =>
    rw [escDouble]
    simp only [List.length_cons, List.length_append]
    split <;> simp <;> omega

theorem quoteDefaultGo_len (l : List Char) : l.length ≤ (quoteDefaultGo l).length := by
  induction l using quoteDefaultGo.induct with
  | case1 => simp [quoteDefaultGo]
  | case2 c h => rw [quoteDefaultGo, if_pos h]; simp
  | case3 c h => rw [quoteDefaultGo, if_neg h]
  | case4 c d ih =>
    rw [quoteDefaultGo]
    simp only [List.length_cons, List.length_append] at ih ⊢
    split <;> simp only [List.length_cons, List.length_append] <;> omega
  | case5 c d m rest h ih =>
    rw [quoteDefaultGo, if_pos h]
    simp only [List.length_cons] at ih ⊢
    omega
  | case6 c d m rest h ih =>
    rw [quoteDefaultGo, if_neg h]
    simp only [List.length_cons, List.length_append] at ih ⊢
    split <;> simp only [List.length_cons, List.length_append] <;> omega

theorem jsLength_ofChars (l : List Char) : jsLength (ofChars l) = l.length := rfl

theorem quoteArg_len (s : String) : jsLength s ≤ jsLength (quoteArg s) := by
  rw [quoteArg]
  split_ifs with h1 h2 h3
  · rw [h1]
    decide
  · rw [jsLength_append, jsLength_append, jsLength_ofChars]
    have := escSingle_len (chars s)
    have hs : jsLength s = (chars s).length := rfl
    omega
  · rw [jsLength_append, jsLength_append, jsLength_ofChars]
    have := escDouble_len (chars s)
    have hs : jsLength s = (chars s).length := rfl
    omega
  · rw [jsLength_ofChars]
    have := quoteDefaultGo_len (chars s)
    have hs : jsLength s = (chars s).length := rfl
    omega

theorem shellquote_mem_len (x : String) :
    ∀ args : List String, x ∈ args →
      jsLength (quoteArg x) ≤ jsLength (shellquote args) := by
  intro args
  induction args with
  | nil => intro h; exact absurd h (List.not_mem_nil x)
  | cons a t ih =>
    intro hx
    cases t with
    | nil =>
      rcases List.mem_cons.mp hx with rfl | h'
      · rw [shellquote]
      · exact absurd h' (List.not_mem_nil x)
    | cons b r =>
      rcases List.mem_cons.mp hx with rfl | h'
      · rw [shellquote, jsLength_append, jsLength_append]
        omega
      · rw [shellquote, jsLength_append, jsLength_append]
        have := ih h'
        omega

theorem joinLines_mem_len (x : String) :
    ∀ lines : List String, x ∈ lines → jsLength x ≤ jsLength (joinLines lines) := by
  intro lines
  induction lines with
  | nil => intro h; exact absurd h (List.not_mem_nil x)
  | cons a t ih =>
    intro hx
    cases t with
    | nil =>
      rcases List.mem_cons.mp hx with rfl | h'
      · rw [joinLines]
      · exact absurd h' (List.not_mem_nil x)
    | cons b r =>
      rcases List.mem_cons.mp hx with rfl | h'
      · rw [joinLines, jsLength_append, jsLength_append]
        omega
      · rw [joinLines, jsLength_append, jsLength_append]
        have := ih h'
        omega

/-- Every successful `buildFinalArg` output is at least as long as the
user command (the command is embedded, shell-quoted, within it). -/
theorem buildFinalArg_len (env : LinuxWrapEnv) (params : LinuxSandboxParams)
    (seccompFilterPath : Option String) (shell fa : String)
    (h : buildFinalArg env params seccompFilterPath shell = .ok fa) :
    jsLength params.command ≤ jsLength fa := by
  rw [buildFinalArg.eq_def] at h
  split_ifs at h with hnet
  · -- network-mediated: fa = shell -c <quoted inner script>
    rw [buildSandboxCommand.eq_def] at h
    simp only [] at h
    have hcmd : jsLength params.command ≤ jsLength (quoteArg params.command) :=
      quoteArg_len _
    cases hsec : seccompFilterPath with
    | some path =>
      rw [hsec] at h
      cases hbin : env.applySeccompBinary with
      | none => rw [hbin] at h; cases h
      | some bin =>
        rw [hbin] at h
        simp only [Except.ok.injEq] at h
        subst h
        rw [jsLength_append, jsLength_append]
        have h1 : jsLength (quoteArg params.command) ≤
            jsLength (shellquote [bin, path, shell, "-c", params.command]) :=
          shellquote_mem_len _ _ (by simp)
        have h2 : jsLength (shellquote [bin, path, shell, "-c", params.command]) ≤
            jsLength (joinLines
              (["socat TCP-LISTEN:3128,fork,reuseaddr UNIX-CONNECT:" ++
                  params.httpSocketPath.getD "" ++ " >/dev/null 2>&1 &",
                "socat TCP-LISTEN:1080,fork,reuseaddr UNIX-CONNECT:" ++
                  params.socksSocketPath.getD "" ++ " >/dev/null 2>&1 &",
                "trap \"kill %1 %2 2>/dev/null; exit\" EXIT"] ++
                [shellquote [bin, path, shell, "-c", params.command]])) :=
          joinLines_mem_len _ _ (by simp)
        have h3 := quoteArg_len (joinLines
          (["socat TCP-LISTEN:3128,fork,reuseaddr UNIX-CONNECT:" ++
              params.httpSocketPath.getD "" ++ " >/dev/null 2>&1 &",
            "socat TCP-LISTEN:1080,fork,reuseaddr UNIX-CONNECT:" ++
              params.socksSocketPath.getD "" ++ " >/dev/null 2>&1 &",
            "trap \"kill %1 %2 2>/dev/null; exit\" EXIT"] ++
            [shellquote [bin, path, shell, "-c", params.command]]))
        have h4 : shellquote [joinLines
            (["socat TCP-LISTEN:3128,fork,reuseaddr UNIX-CONNECT:" ++
                params.httpSocketPath.getD "" ++ " >/dev/null 2>&1 &",
              "socat TCP-LISTEN:1080,fork,reuseaddr UNIX-CONNECT:" ++
                params.socksSocketPath.getD "" ++ " >/dev/null 2>&1 &",
              "trap \"kill %1 %2 2>/dev/null; exit\" EXIT"] ++
              [shellquote [bin, path, shell, "-c", params.command]])] =
            quoteArg (joinLines
            (["socat TCP-LISTEN:3128,fork,reuseaddr UNIX-CONNECT:" ++
                params.httpSocketPath.getD "" ++ " >/dev/null 2>&1 &",
              "socat TCP-LISTEN:1080,fork,reuseaddr UNIX-CONNECT:" ++
                params.socksSocketPath.getD "" ++ " >/dev/null 2>&1 &",
              "trap \"kill %1 %2 2>/dev/null; exit\" EXIT"] ++
              [shellquote [bin, path, shell, "-c", params.command]])) := by
          rw [shellquote]
        rw [h4]
        omega
    | none =>
      rw [hsec] at h
      simp only [Except.ok.injEq] at h
      subst h
      rw [jsLength_append, jsLength_append]
      have h1 : jsLength (quoteArg params.command) ≤
          jsLength (shellquote [params.command]) := by
        rw [shellquote]
      have h1b : jsLength (shellquote [params.command]) ≤
          jsLength ("eval " ++ shellquote [params.command]) := by
        rw [jsLength_append]; omega
      have h2 : jsLength ("eval " ++ shellquote [params.command]) ≤
          jsLength (joinLines
            (["socat TCP-LISTEN:3128,fork,reuseaddr UNIX-CONNECT:" ++
                params.httpSocketPath.getD "" ++ " >/dev/null 2>&1 &",
              "socat TCP-LISTEN:1080,fork,reuseaddr UNIX-CONNECT:" ++
                params.socksSocketPath.getD "" ++ " >/dev/null 2>&1 &",
              "trap \"kill %1 %2 2>/dev/null; exit\" EXIT"] ++
              ["eval " ++ shellquote [params.command]])) :=
        joinLines_mem_len _ _ (by simp)
      have h3 := quoteArg_len (joinLines
        (["socat TCP-LISTEN:3128,fork,reuseaddr UNIX-CONNECT:" ++
            params.httpSocketPath.getD "" ++ " >/dev/null 2>&1 &",
          "socat TCP-LISTEN:1080,fork,reuseaddr UNIX-CONNECT:" ++
            params.socksSocketPath.getD "" ++ " >/dev/null 2>&1 &",
          "trap \"kill %1 %2 2>/dev/null; exit\" EXIT"] ++
          ["eval " ++ shellquote [params.command]]))
      have h4 : shellquote [joinLines
          (["socat TCP-LISTEN:3128,fork,reuseaddr UNIX-CONNECT:" ++
              params.httpSocketPath.getD "" ++ " >/dev/null 2>&1 &",
            "socat TCP-LISTEN:1080,fork,reuseaddr UNIX-CONNECT:" ++
              params.socksSocketPath.getD "" ++ " >/dev/null 2>&1 &",
            "trap \"kill %1 %2 2>/dev/null; exit\" EXIT"] ++
            ["eval " ++ shellquote [params.command]])] =
          quoteArg (joinLines
          (["socat TCP-LISTEN:3128,fork,reuseaddr UNIX-CONNECT:" ++
              params.httpSocketPath.getD "" ++ " >/dev/null 2>&1 &",
            "socat TCP-LISTEN:1080,fork,reuseaddr UNIX-CONNECT:" ++
              params.socksSocketPath.getD "" ++ " >/dev/null 2>&1 &",
            "trap \"kill %1 %2 2>/dev/null; exit\" EXIT"] ++
            ["eval " ++ shellquote [params.command]])) := by
        rw [shellquote]
      rw [h4]
      have hq := quoteArg_len params.command
      omega
  · -- no network mediation
    cases hsec : seccompFilterPath with
    | some path =>
      rw [hsec] at h
      cases hbin : env.applySeccompBinary with
      | none => rw [hbin] at h; cases h
      | some bin =>
        rw [hbin] at h
        simp only [Except.ok.injEq] at h
        subst h
        have h1 : jsLength (quoteArg params.command) ≤
            jsLength (shellquote [bin, path, shell, "-c", params.command]) :=
          shellquote_mem_len _ _ (by simp)
        have := quoteArg_len params.command
        omega
    | none =>
      rw [hsec] at h
      simp only [Except.ok.injEq] at h
      subst h
      exact Nat.le_refl _

theorem quoteArg_bwrap : quoteArg "bwrap" = "bwrap" := by decide

theorem jsStartsWith_bwrap (Y : String) :
    jsStartsWith ("bwrap" ++ " " ++ Y) "bwrap " = true := by
  rw [jsStartsWith]
  have hc : chars ("bwrap" ++ " " ++ Y) = chars "bwrap " ++ chars Y := by
    rw [chars_append, chars_append]
    rfl
  rw [hc]
  simp only [List.isPrefixOf_iff_prefix]
  exact ⟨chars Y, rfl⟩

/-- In the restricted branch, every successful wrap is a `bwrap `-prefixed
string strictly longer than the command. -/
theorem wrapLinux_else_shape (env : LinuxWrapEnv) (params : LinuxSandboxParams)
    (hc : ¬(¬params.needsNetworkRestriction = true ∧
      ¬(match params.readConfig with
        | some rc => decide (rc.denyOnly ≠ [])
        | none => false) = true ∧
      ¬params.writeConfig.isSome = true))
    (s : String) (hres : wrapCommandWithSandboxLinux env params = .ok s) :
    jsStartsWith s "bwrap " = true ∧ jsLength params.command < jsLength s := by
  rw [wrapCommandWithSandboxLinux.eq_def, if_neg hc] at hres
  cases hna : buildNetArgs env params with
  | error e => simp [hna] at hres
  | ok netArgs =>
    cases hfs : env.fsArgs with
    | none => simp [hna, hfs] at hres
    | some fsArgs =>
      cases hsh : getShell env params.binShell with
      | error e => simp [hna, hfs, hsh] at hres
      | ok shell =>
        cases hfin : buildFinalArg env params
            (handleSeccomp env (params.allowAllUnixSockets.getD false)) shell with
        | error e => simp [hna, hfs, hsh, hfin] at hres
        | ok finalArg =>
          simp only [hna, hfs, hsh, hfin, Except.ok.injEq] at hres
          subst hres
          have hshape : shellquote ("bwrap" ::
              (["--new-session", "--die-with-parent"] ++ netArgs ++ fsArgs ++
                ["--dev", "/dev", "--unshare-pid"] ++
                (if ¬(params.enableWeakerNestedSandbox.getD false) then
                  ["--proc", "/proc"]
                else []) ++
                ["--", shell, "-c", finalArg])) =
              quoteArg "bwrap" ++ " " ++
                shellquote ("--new-session" :: "--die-with-parent" ::
                  (netArgs ++ fsArgs ++ ["--dev", "/dev", "--unshare-pid"] ++
                    (if ¬(params.enableWeakerNestedSandbox.getD false) then
                      ["--proc", "/proc"]
                    else []) ++
                    ["--", shell, "-c", finalArg])) := by
            rfl
          rw [hshape, quoteArg_bwrap]
          constructor
          · exact jsStartsWith_bwrap _
          · have hmem : finalArg ∈ "--new-session" :: "--die-with-parent" ::
                (netArgs ++ fsArgs ++ ["--dev", "/dev", "--unshare-pid"] ++
                  (if ¬(params.enableWeakerNestedSandbox.getD false) then
                    ["--proc", "/proc"]
                  else []) ++
                  ["--", shell, "-c", finalArg]) := by
              simp
            have h1 := shellquote_mem_len finalArg _ hmem
            have h2 := quoteArg_len finalArg
            have h3 := buildFinalArg_len env params
              (handleSeccomp env (params.allowAllUnixSockets.getD false)) shell
              finalArg hfin
            rw [jsLength_append, jsLength_append]
            have h4 : jsLength ("bwrap" : String) = 5 := rfl
            have h5 : jsLength (" " : String) = 1 := rfl
            omega

/-- Claim C6: `wrapCommandWithSandboxLinux` returns the command unchanged
exactly when network restriction is off, the read config is absent or has
an empty deny list, and the write config is absent; in every other case a
successfully returned string is a `bwrap ` invocation distinct from the
command. -/
theorem wrapLinux_identity_iff (env : LinuxWrapEnv) (params : LinuxSandboxParams) :
    (wrapCommandWithSandboxLinux env params = .ok params.command ↔
      (params.needsNetworkRestriction = false ∧
        (params.readConfig = none ∨ params.readConfig = some ⟨[]⟩) ∧
        params.writeConfig = none)) ∧
    (¬(params.needsNetworkRestriction = false ∧
        (params.readConfig = none ∨ params.readConfig = some ⟨[]⟩) ∧
        params.writeConfig = none) →
      ∀ s, wrapCommandWithSandboxLinux env params = .ok s →
        jsStartsWith s "bwrap " = true ∧ s ≠ params.command) := by
  have hcond : (¬params.needsNetworkRestriction = true ∧
      ¬(match params.readConfig with
        | some rc => decide (rc.denyOnly ≠ [])
        | none => false) = true ∧
      ¬params.writeConfig.isSome = true) ↔
      (params.needsNetworkRestriction = false ∧
        (params.readConfig = none ∨ params.readConfig = some ⟨[]⟩) ∧
        params.writeConfig = none) := by
    constructor
    · rintro ⟨h1, h2, h3⟩
      refine ⟨by simpa using h1, ?_, by simpa using h3⟩
      cases hrc : params.readConfig with
      | none => exact Or.inl rfl
      | some rc =>
        right
        rw [hrc] at h2
        have hd : rc.denyOnly = [] := by
          by_contra hcon
          exact h2 (by simp [hcon])
        cases rc with
        | mk denyOnly =>
          simp only at hd
          rw [hd]
    · rintro ⟨h1, h2, h3⟩
      refine ⟨by simp [h1], ?_, by simp [h3]⟩
      rcases h2 with h2 | h2 <;> rw [h2] <;> simp
  have hne : ∀ s, jsLength params.command < jsLength s → s ≠ params.command := by
    intro s hlen heq
    rw [heq] at hlen
    omega
  constructor
  · constructor
    · intro hres
      by_cases hcode : (¬params.needsNetworkRestriction = true ∧
          ¬(match params.readConfig with
            | some rc => decide (rc.denyOnly ≠ [])
            | none => false) = true ∧
          ¬params.writeConfig.isSome = true)
      · exact hcond.mp hcode
      · have := wrapLinux_else_shape env params hcode params.command hres
        omega
    · intro hclaim
      rw [wrapCommandWithSandboxLinux.eq_def, if_pos (hcond.mpr hclaim)]
  · intro hclaim s hres
    have hcode : ¬(¬params.needsNetworkRestriction = true ∧
        ¬(match params.readConfig with
          | some rc => decide (rc.denyOnly ≠ [])
          | none => false) = true ∧
        ¬params.writeConfig.isSome = true) := fun h => hclaim (hcond.mp h)
    obtain ⟨h1, h2⟩ := wrapLinux_else_shape env params hcode s hres
    exact ⟨h1, hne s h2⟩

/-- Witness for C6: with a read config whose deny list is empty, no write
config and no network restriction, the command comes back unchanged; with
a non-empty deny-read list the same command comes back as a distinct
`bwrap ` invocation. -/
theorem wrapLinux_identity_iff_witness :
    wrapCommandWithSandboxLinux
      ⟨none, none, some [], fun _ => some "/bin/bash", fun _ => true⟩
      ⟨"echo hi", false, none, none, none, none, some ⟨[]⟩, none, none, none, none⟩ =
      .ok "echo hi" ∧
    (jsStartsWith
        "bwrap --new-session --die-with-parent --dev /dev --unshare-pid --proc /proc -- /bin/bash -c 'echo hi'"
        "bwrap " = true ∧
      "bwrap --new-session --die-with-parent --dev /dev --unshare-pid --proc /proc -- /bin/bash -c 'echo hi'" ≠
        "echo hi") :=
  ⟨(wrapLinux_identity_iff
      ⟨none, none, some [], fun _ => some "/bin/bash", fun _ => true⟩
      ⟨"echo hi", false, none, none, none, none, some ⟨[]⟩, none, none, none, none⟩).1.mpr
      ⟨rfl, Or.inr rfl, rfl⟩,
    (wrapLinux_identity_iff
      ⟨none, none, some [], fun _ => some "/bin/bash", fun _ => true⟩
      ⟨"echo hi", false, none, none, none, none, some ⟨["/x"]⟩, none, none, none, none⟩).2
      (by decide)
      "bwrap --new-session --die-with-parent --dev /dev --unshare-pid --proc /proc -- /bin/bash -c 'echo hi'"
      rfl⟩

/-! ## C7: the glob-to-regex translation (source: `globToRegex`,
`createRuleWithGlobSupport`)

The claim describes a single left-to-right translation of the pattern;
the source performs six sequential global `replace` passes.  To compare
them we read the pattern as a list of glob tokens (greedy, `**/` before
`**` before `*`), render each intermediate stage of the `replace` chain
as a per-token segment table, and prove each pass correct on the
rendered form. -/

/-- One character of the first `replace` of `globToRegex`: the regex
metacharacters gain a backslash, all other characters pass through. -/
def escapeLit (c : Char) : List Char :=
  if c = '.' ∨ c = '^' ∨ c = '$' ∨ c = '+' ∨ c = '\x7b' ∨ c = '\x7d' ∨
      c = '(' ∨ c = ')' ∨ c = '|' ∨ c = '\\' then ['\\', c] else [c]

theorem regexEscapeStep_cons (c : Char) (t : List Char) :
    regexEscapeStep (c :: t) = escapeLit c ++ regexEscapeStep t := rfl

/-- `escapeLit` yields the backslash-escaped pair only for metacharacters
(which are never `_`, `*`, `?`, or `/`), else the bare character. -/
theorem escapeLit_shape (c : Char) :
    (escapeLit c = ['\\', c] ∧ c ≠ '_' ∧ c ≠ '*' ∧ c ≠ '?' ∧ c ≠ '/') ∨
      escapeLit c = [c] := by
  unfold escapeLit
  split
  · rename_i h
    left
    refine ⟨rfl, ?_, ?_, ?_, ?_⟩ <;>
      (rcases h with rfl | rfl | rfl | rfl | rfl | rfl | rfl | rfl | rfl | rfl <;> decide)
  · right
    rfl

/-- The glob tokens of a pattern: `**/`, `**`, `*`, `?`, or a literal
character. -/
inductive GTok
  | ssl
  | ss
  | star
  | qm
  | lit (c : Char)
deriving DecidableEq

/-- Reads a pattern greedily into glob tokens, `**/` before `**` before
`*` (the order in which the `replace` chain of `globToRegex` consumes
them, and the order the spec lists the rewrites in). -/
def tokenize : List Char → List GTok
  | [] => []
  | c :: t =>
    if c = '*' then
      match t with
      | [] => [GTok.star]
      | d :: t2 =>
        if d = '*' then
          match t2 with
          | [] => [GTok.ss]
          | e :: t3 =>
            if e = '/' then GTok.ssl :: tokenize t3
            else GTok.ss :: tokenize (e :: t3)
        else GTok.star :: tokenize (d :: t2)
    else if c = '?' then GTok.qm :: tokenize t
    else GTok.lit c :: tokenize t

theorem tokenize_ssl (t3 : List Char) :
    tokenize ('*' :: '*' :: '/' :: t3) = GTok.ssl :: tokenize t3 := by
  rw [tokenize.eq_def]
  simp

theorem tokenize_ss (e : Char) (t3 : List Char) (he : ¬e = '/') :
    tokenize ('*' :: '*' :: e :: t3) = GTok.ss :: tokenize (e :: t3) := by
  rw [tokenize.eq_def]
  simp [he]

theorem tokenize_star (e : Char) (t3 : List Char) (he : ¬e = '*') :
    tokenize ('*' :: e :: t3) = GTok.star :: tokenize (e :: t3) := by
  rw [tokenize.eq_def]
  simp [he]

theorem tokenize_qm (t3 : List Char) :
    tokenize ('?' :: t3) = GTok.qm :: tokenize t3 := by
  rw [tokenize.eq_def]
  simp

theorem tokenize_lit (e : Char) (t3 : List Char) (h1 : ¬e = '*') (h2 : ¬e = '?') :
    tokenize (e :: t3) = GTok.lit e :: tokenize t3 := by
  rw [tokenize.eq_def]
  simp [h1, h2]

/-- Concatenated per-token rendering of a token list. -/
def rendSegs (f : GTok → List Char) : List GTok → List Char
  | [] => []
  | t :: r => f t ++ rendSegs f r

/-- Per-token segments of the original pattern text. -/
def segRaw : GTok → List Char
  | .ssl => chars "**/"
  | .ss => chars "**"
  | .star => ['*']
  | .qm => ['?']
  | .lit c => [c]

/-- Per-token segments after the metacharacter-escaping pass. -/
def segEsc : GTok → List Char
  | .ssl => chars "**/"
  | .ss => chars "**"
  | .star => ['*']
  | .qm => ['?']
  | .lit c => escapeLit c

/-- Segments after the `**/` pass has planted its marker. -/
def segM1 : GTok → List Char
  | .ssl => globstarSlashMarker
  | .ss => chars "**"
  | .star => ['*']
  | .qm => ['?']
  | .lit c => escapeLit c

/-- Segments after the `**` pass has planted its marker. -/
def segM2 : GTok → List Char
  | .ssl => globstarSlashMarker
  | .ss => globstarMarker
  | .star => ['*']
  | .qm => ['?']
  | .lit c => escapeLit c

/-- Segments after the `*` pass. -/
def segStar : GTok → List Char
  | .ssl => globstarSlashMarker
  | .ss => globstarMarker
  | .star => chars "[^/]*"
  | .qm => ['?']
  | .lit c => escapeLit c

/-- Segments after the `?` pass. -/
def segQm : GTok → List Char
  | .ssl => globstarSlashMarker
  | .ss => globstarMarker
  | .star => chars "[^/]*"
  | .qm => chars "[^/]"
  | .lit c => escapeLit c

/-- Segments after the `__GLOBSTAR_SLASH__` marker is resolved. -/
def segSsl : GTok → List Char
  | .ssl => chars "(.*/)?"
  | .ss => globstarMarker
  | .star => chars "[^/]*"
  | .qm => chars "[^/]"
  | .lit c => escapeLit c

/-- The spec's translation table: `**/` to `(.*/)?`, `**` to `.*`, `*`
to `[^/]*`, `?` to `[^/]`, and literal characters with regex
metacharacters backslash-escaped. -/
def specGlobTok : GTok → List Char
  | .ssl => chars "(.*/)?"
  | .ss => chars ".*"
  | .star => chars "[^/]*"
  | .qm => chars "[^/]"
  | .lit c => escapeLit c

/-- Follows the spec's words: the single-pass glob-to-regex translation —
read the pattern left to right as glob tokens and rewrite each token by
the spec's table, anchored in `^`…`$`. -/
def specGlobTranslate (p : String) : String :=
  "^" ++ ofChars (rendSegs specGlobTok (tokenize (chars p))) ++ "$"

theorem rendSegs_segRaw : ∀ l, rendSegs segRaw (tokenize l) = l := by
  intro l
  induction l using tokenize.induct with
  | case1 => rfl
  | case2 => rfl
  | case3 => rfl
  | case4 t3 ih =>
    rw [tokenize_ssl]
    simp [rendSegs, segRaw, ih, chars]
  | case5 e t3 he ih =>
    rw [tokenize_ss e t3 he]
    simp [rendSegs, segRaw, ih, chars]
  | case6 e t3 he ih =>
    rw [tokenize_star e t3 he]
    simp [rendSegs, segRaw, ih]
  | case7 t3 h ih =>
    rw [tokenize_qm]
    simp [rendSegs, segRaw, ih]
  | case8 e t3 h1 h2 ih =>
    rw [tokenize_lit e t3 h1 h2]
    simp [rendSegs, segRaw, ih]

theorem regexEscapeStep_rend : ∀ l, regexEscapeStep l = rendSegs segEsc (tokenize l) := by
  intro l
  induction l using tokenize.induct with
  | case1 => rfl
  | case2 => rfl
  | case3 => rfl
  | case4 t3 ih =>
    rw [tokenize_ssl]
    simp [rendSegs, segEsc, regexEscapeStep_cons, ih, escapeLit, chars]
  | case5 e t3 he ih =>
    rw [tokenize_ss e t3 he]
    simp only [rendSegs, segEsc, regexEscapeStep_cons, ← ih]
    simp [escapeLit, chars]
  | case6 e t3 he ih =>
    rw [tokenize_star e t3 he]
    simp only [rendSegs, segEsc, regexEscapeStep_cons, ← ih]
    simp [escapeLit]
  | case7 t3 h ih =>
    rw [tokenize_qm]
    simp only [rendSegs, segEsc, regexEscapeStep_cons, ← ih]
    simp [escapeLit]
  | case8 e t3 h1 h2 ih =>
    rw [tokenize_lit e t3 h1 h2]
    simp [rendSegs, segEsc, regexEscapeStep_cons, ih]

/-- `bracketFix` is the identity on bracket-free text. -/
theorem bracketFix_id : ∀ l : List Char, (∀ c ∈ l, c ≠ '[') → bracketFix l = l := by
  intro l
  induction l with
  | nil => intro _; rfl
  | cons c t ih =>
    intro h
    rw [bracketFix]
    rw [if_neg]
    · rw [ih fun d hd => h d (List.mem_cons_of_mem c hd)]
    · intro hand
      exact h c (List.mem_cons_self c t) hand.1

/-- The escaping pass introduces no `[`. -/
theorem regexEscapeStep_no_bracket :
    ∀ l : List Char, (∀ c ∈ l, c ≠ '[') → ∀ c ∈ regexEscapeStep l, c ≠ '[' := by
  intro l
  induction l with
  | nil => intro _ c hc; simp [regexEscapeStep] at hc
  | cons a t ih =>
    intro h c hc
    rw [regexEscapeStep_cons] at hc
    rcases List.mem_append.mp hc with hc1 | hc2
    · rcases escapeLit_shape a with ⟨he, _⟩ | he
      · rw [he] at hc1
        simp at hc1
        rcases hc1 with rfl | rfl
        · decide
        · exact h _ (List.mem_cons_self _ _)
      · rw [he] at hc1
        simp at hc1
        subst hc1
        exact h _ (List.mem_cons_self _ _)
    · exact ih (fun d hd => h d (List.mem_cons_of_mem a hd)) c hc2

/-- The fuel of `replaceSubGo` is irrelevant once it covers the input
length (the pattern being nonempty, each step strictly shrinks). -/
theorem replaceSubGo_eq_len (pat rep : List Char) (hp : pat ≠ []) :
    ∀ (n f : Nat) (l : List Char), l.length ≤ f → l.length ≤ n →
      replaceSubGo pat rep f l = replaceSubGo pat rep l.length l := by
  intro n
  induction n with
  | zero =>
    intro f l hf hn
    have hl : l = [] := List.length_eq_zero.mp (Nat.le_zero.mp hn)
    subst hl
    cases f <;> rfl
  | succ n ih =>
    intro f l hf hn
    match l with
    | [] => cases f <;> rfl
    | c :: t =>
      cases f with
      | zero => simp at hf
      | succ f =>
        by_cases hpre : pat.isPrefixOf (c :: t)
        · have hple : pat.length ≤ (c :: t).length :=
            (List.isPrefixOf_iff_prefix.mp hpre).length_le
          have hp1 : 1 ≤ pat.length :=
            Nat.succ_le_of_lt (List.length_pos.mpr hp)
          simp only [List.length_cons, replaceSubGo, if_pos hpre]
          have hd : ((c :: t).drop pat.length).length = (c :: t).length - pat.length := by
            rw [List.length_drop]
          have hlt : ((c :: t).drop pat.length).length ≤ t.length := by
            rw [hd]
            simp only [List.length_cons]
            omega
          rw [ih f ((c :: t).drop pat.length) (by omega) (by
            simp only [List.length_cons] at hn; omega)]
          rw [ih t.length ((c :: t).drop pat.length) (by omega) (by
            simp only [List.length_cons] at hn; omega)]
        · simp only [List.length_cons, replaceSubGo, if_neg hpre]
          rw [ih f t (by simp only [List.length_cons] at hf; omega) (by
            simp only [List.length_cons] at hn; omega)]

theorem replaceAllSub_nil (pat rep : List Char) : replaceAllSub pat rep [] = [] := by
  rfl

/-- A match at the scan position is consumed whole and replaced; the
scan continues after it. -/
theorem replaceAllSub_matchHead (pat rep rest : List Char) (hp : pat ≠ []) :
    replaceAllSub pat rep (pat ++ rest) = rep ++ replaceAllSub pat rep rest := by
  match pat, hp with
  | p0 :: pt, _ =>
    unfold replaceAllSub
    have hlen : ((p0 :: pt) ++ rest).length = (pt ++ rest).length + 1 := by
      simp
    rw [hlen]
    have hshape : (p0 :: pt) ++ rest = p0 :: (pt ++ rest) := rfl
    rw [hshape]
    simp only [replaceSubGo]
    rw [if_pos]
    · have hdrop : (p0 :: (pt ++ rest)).drop (p0 :: pt).length = rest := by
        rw [← hshape, List.drop_left]
      rw [hdrop]
      rw [replaceSubGo_eq_len (p0 :: pt) rep (by simp) (pt ++ rest).length
        (pt ++ rest).length rest (by simp) (by simp)]
    · rw [← hshape]
      exact List.isPrefixOf_iff_prefix.mpr (List.prefix_append _ _)

/-- No match at the scan position: the character is emitted and the scan
moves one step. -/
theorem replaceAllSub_noMatchCons (pat rep : List Char) (c : Char) (l : List Char)
    (h : pat.isPrefixOf (c :: l) = false) :
    replaceAllSub pat rep (c :: l) = c :: replaceAllSub pat rep l := by
  unfold replaceAllSub
  simp only [List.length_cons, replaceSubGo, h, Bool.false_eq_true, if_false]

/-- A block of characters none of which can begin a match is copied
verbatim. -/
theorem replaceAllSub_skipSeg (p0 : Char) (pt rep : List Char) :
    ∀ (seg rest : List Char), (∀ c ∈ seg, c ≠ p0) →
      replaceAllSub (p0 :: pt) rep (seg ++ rest) =
        seg ++ replaceAllSub (p0 :: pt) rep rest := by
  intro seg
  induction seg with
  | nil => intro rest _; rfl
  | cons c s ih =>
    intro rest hmem
    have hc : c ≠ p0 := hmem c (List.mem_cons_self c s)
    have hno : (p0 :: pt).isPrefixOf (c :: (s ++ rest)) = false := by
      show (p0 == c && pt.isPrefixOf (s ++ rest)) = false
      simp [beq_iff_eq, Ne.symm hc]
    rw [List.cons_append, replaceAllSub_noMatchCons _ _ _ _ hno,
      ih rest fun d hd => hmem d (List.mem_cons_of_mem c hd)]
    rfl

theorem listHasInfix_cons (w : List Char) (c : Char) (t : List Char)
    (h : listHasInfix w t = true) : listHasInfix w (c :: t) = true := by
  rw [listHasInfix, h, Bool.or_true]

theorem listHasInfix_of_pre (w l : List Char) (h : w.isPrefixOf l = true) :
    listHasInfix w l = true := by
  cases l with
  | nil =>
    cases w with
    | nil => rfl
    | cons c w' => simp [List.isPrefixOf] at h
  | cons c t => rw [listHasInfix, h, Bool.true_or]

theorem listHasInfix_tail (w : List Char) (c : Char) (t : List Char)
    (h : listHasInfix w (c :: t) = false) : listHasInfix w t = false := by
  cases hh : listHasInfix w t with
  | false => rfl
  | true => simp [listHasInfix_cons w c t hh] at h

theorem isPrefixOf_append_left (a b l : List Char) (h : (a ++ b).isPrefixOf l = true) :
    a.isPrefixOf l = true := by
  rw [List.isPrefixOf_iff_prefix] at h ⊢
  exact (List.prefix_append a b).trans h

/-- A letters-only word can begin a rendered stage only at literal
tokens, hence is a leading word of the pattern itself. -/
theorem rendSegs_lettersOf (f : GTok → List Char)
    (hfl : ∀ c, f (GTok.lit c) = escapeLit c)
    (hhead : ∀ t : GTok, (∀ c, t ≠ GTok.lit c) →
      ∃ d Y, f t = d :: Y ∧ d ∉ chars "GLOBSTAR") :
    ∀ (l w : List Char), (∀ c ∈ w, c ∈ chars "GLOBSTAR") →
      w.isPrefixOf (rendSegs f (tokenize l)) = true → w.isPrefixOf l = true := by
  have hstep : ∀ (tok : GTok) (T : List GTok) (w : List Char),
      (∀ c ∈ w, c ∈ chars "GLOBSTAR") → (∀ c, tok ≠ GTok.lit c) →
      w.isPrefixOf (rendSegs f (tok :: T)) = true → w = [] := by
    intro tok T w hw htok hpre
    obtain ⟨d, Y, hfd, hdn⟩ := hhead tok htok
    cases w with
    | nil => rfl
    | cons c w' =>
      rw [rendSegs, hfd, List.cons_append] at hpre
      simp only [List.isPrefixOf, Bool.and_eq_true, beq_iff_eq] at hpre
      exact absurd (hpre.1 ▸ hw c (List.mem_cons_self c w')) hdn
  intro l
  induction l using tokenize.induct with
  | case1 =>
    intro w hw hpre
    cases w with
    | nil => rfl
    | cons c w' => simp [List.isPrefixOf] at hpre
  | case2 =>
    intro w hw hpre
    rw [hstep GTok.star [] w hw (fun c h => GTok.noConfusion h) hpre]
    rfl
  | case3 =>
    intro w hw hpre
    rw [hstep GTok.ss [] w hw (fun c h => GTok.noConfusion h) hpre]
    rfl
  | case4 t3 ih =>
    intro w hw hpre
    rw [tokenize_ssl] at hpre
    rw [hstep GTok.ssl (tokenize t3) w hw (fun c h => GTok.noConfusion h) hpre]
    rfl
  | case5 e t3 he ih =>
    intro w hw hpre
    rw [tokenize_ss e t3 he] at hpre
    rw [hstep GTok.ss (tokenize (e :: t3)) w hw (fun c h => GTok.noConfusion h) hpre]
    rfl
  | case6 e t3 he ih =>
    intro w hw hpre
    rw [tokenize_star e t3 he] at hpre
    rw [hstep GTok.star (tokenize (e :: t3)) w hw (fun c h => GTok.noConfusion h) hpre]
    rfl
  | case7 t3 h ih =>
    intro w hw hpre
    rw [tokenize_qm] at hpre
    rw [hstep GTok.qm (tokenize t3) w hw (fun c h => GTok.noConfusion h) hpre]
    rfl
  | case8 e t3 h1 h2 ih =>
    intro w hw hpre
    rw [tokenize_lit e t3 h1 h2] at hpre
    rw [rendSegs, hfl] at hpre
    rcases escapeLit_shape e with ⟨hes, _⟩ | hes
    · rw [hes] at hpre
      cases w with
      | nil => rfl
      | cons c w' =>
        rw [List.cons_append] at hpre
        simp only [List.isPrefixOf, Bool.and_eq_true, beq_iff_eq] at hpre
        have : c ∈ chars "GLOBSTAR" := hw c (List.mem_cons_self c w')
        rw [hpre.1] at this
        exact absurd this (by decide)
    · rw [hes] at hpre
      cases w with
      | nil => rfl
      | cons c w' =>
        rw [List.cons_append, List.nil_append] at hpre
        simp only [List.isPrefixOf, Bool.and_eq_true, beq_iff_eq] at hpre
        have hw' := ih w' (fun d hd => hw d (List.mem_cons_of_mem c hd)) hpre.2
        simp only [List.isPrefixOf, Bool.and_eq_true, beq_iff_eq]
        exact ⟨hpre.1, hw'⟩

theorem segQm_head : ∀ t : GTok, (∀ c, t ≠ GTok.lit c) →
    ∃ d Y, segQm t = d :: Y ∧ d ∉ chars "GLOBSTAR" := by
  intro t ht
  cases t with
  | ssl => exact ⟨'_', chars "_GLOBSTAR_SLASH__", by decide, by decide⟩
  | ss => exact ⟨'_', chars "_GLOBSTAR__", by decide, by decide⟩
  | star => exact ⟨'[', chars "^/]*", by decide, by decide⟩
  | qm => exact ⟨'[', chars "^/]", by decide, by decide⟩
  | lit c => exact absurd rfl (ht c)

theorem segSsl_head : ∀ t : GTok, (∀ c, t ≠ GTok.lit c) →
    ∃ d Y, segSsl t = d :: Y ∧ d ∉ chars "GLOBSTAR" := by
  intro t ht
  cases t with
  | ssl => exact ⟨'(', chars ".*/)?", by decide, by decide⟩
  | ss => exact ⟨'_', chars "_GLOBSTAR__", by decide, by decide⟩
  | star => exact ⟨'[', chars "^/]*", by decide, by decide⟩
  | qm => exact ⟨'[', chars "^/]", by decide, by decide⟩
  | lit c => exact absurd rfl (ht c)

/-- A `GLOBSTAR`-led word cannot begin anywhere in a rendered stage of a
pattern that does not itself contain `GLOBSTAR`. -/
theorem spurLetters (f : GTok → List Char)
    (hfl : ∀ c, f (GTok.lit c) = escapeLit c)
    (hhead : ∀ t : GTok, (∀ c, t ≠ GTok.lit c) →
      ∃ d Y, f t = d :: Y ∧ d ∉ chars "GLOBSTAR")
    (rest l : List Char) (h3 : listHasInfix (chars "GLOBSTAR") l = false)
    (hpre : (chars "GLOBSTAR" ++ rest).isPrefixOf (rendSegs f (tokenize l)) = true) :
    False := by
  have h8 := isPrefixOf_append_left _ _ _ hpre
  have hl := rendSegs_lettersOf f hfl hhead l (chars "GLOBSTAR") (fun c h => h) h8
  have := listHasInfix_of_pre _ _ hl
  rw [h3] at this
  exact Bool.false_ne_true this

/-- The `__GLOBSTAR_SLASH__` marker (minus its first character, as seen
from a scan position on a literal `_`) never occurs in the stage the
marker-resolving pass scans, except at planted markers. -/
theorem spurMarkOne : ∀ l : List Char, listHasInfix (chars "GLOBSTAR") l = false →
    (chars "_GLOBSTAR_SLASH__").isPrefixOf (rendSegs segQm (tokenize l)) = true → False := by
  have hwA : chars "_GLOBSTAR_SLASH__" = '_' :: (chars "GLOBSTAR" ++ chars "_SLASH__") := by
    decide
  intro l
  induction l using tokenize.induct with
  | case1 => intro _ hpre; exact absurd hpre (by decide)
  | case2 => intro _ hpre; exact absurd hpre (by decide)
  | case3 => intro _ hpre; exact absurd hpre (by decide)
  | case4 t3 ih =>
    intro h3 hpre
    rw [tokenize_ssl, rendSegs] at hpre
    simp only [segQm] at hpre
    have hM1 : globstarSlashMarker = '_' :: '_' :: chars "GLOBSTAR_SLASH__" := by decide
    have hw2 : chars "_GLOBSTAR_SLASH__" = '_' :: 'G' :: chars "LOBSTAR_SLASH__" := by decide
    rw [hM1, hw2] at hpre
    simp [List.isPrefixOf] at hpre
  | case5 e t3 he ih =>
    intro h3 hpre
    rw [tokenize_ss e t3 he, rendSegs] at hpre
    simp only [segQm] at hpre
    have hM2 : globstarMarker = '_' :: '_' :: chars "GLOBSTAR__" := by decide
    have hw2 : chars "_GLOBSTAR_SLASH__" = '_' :: 'G' :: chars "LOBSTAR_SLASH__" := by decide
    rw [hM2, hw2] at hpre
    simp [List.isPrefixOf] at hpre
  | case6 e t3 he ih =>
    intro h3 hpre
    rw [tokenize_star e t3 he, rendSegs] at hpre
    simp only [segQm] at hpre
    have hS : chars "[^/]*" = '[' :: chars "^/]*" := by decide
    rw [hS, hwA] at hpre
    simp [List.isPrefixOf] at hpre
  | case7 t3 h ih =>
    intro h3 hpre
    rw [tokenize_qm, rendSegs] at hpre
    simp only [segQm] at hpre
    have hS : chars "[^/]" = '[' :: chars "^/]" := by decide
    rw [hS, hwA] at hpre
    simp [List.isPrefixOf] at hpre
  | case8 e t3 h1 h2 ih =>
    intro h3 hpre
    rw [tokenize_lit e t3 h1 h2, rendSegs] at hpre
    simp only [segQm] at hpre
    rcases escapeLit_shape e with ⟨hes, _⟩ | hes
    · rw [hes, hwA] at hpre
      simp [List.isPrefixOf] at hpre
    · rw [hes, hwA] at hpre
      by_cases he : e = '_'
      · subst he
        simp only [List.singleton_append, List.isPrefixOf, Bool.and_eq_true,
          beq_iff_eq] at hpre
        exact spurLetters segQm (fun c => rfl) segQm_head (chars "_SLASH__") t3
          (listHasInfix_tail _ _ _ h3) hpre.2
      · simp only [List.singleton_append, List.isPrefixOf, Bool.and_eq_true,
          beq_iff_eq] at hpre
        exact he hpre.1.symm

/-- Same for the `__GLOBSTAR__` marker in the stage its resolving pass
scans. -/
theorem spurMarkTwo : ∀ l : List Char, listHasInfix (chars "GLOBSTAR") l = false →
    (chars "_GLOBSTAR__").isPrefixOf (rendSegs segSsl (tokenize l)) = true → False := by
  have hwA : chars "_GLOBSTAR__" = '_' :: (chars "GLOBSTAR" ++ chars "__") := by
    decide
  intro l
  induction l using tokenize.induct with
  | case1 => intro _ hpre; exact absurd hpre (by decide)
  | case2 => intro _ hpre; exact absurd hpre (by decide)
  | case3 => intro _ hpre; exact absurd hpre (by decide)
  | case4 t3 ih =>
    intro h3 hpre
    rw [tokenize_ssl, rendSegs] at hpre
    simp only [segSsl] at hpre
    have hS : chars "(.*/)?" = '(' :: chars ".*/)?" := by decide
    rw [hS, hwA] at hpre
    simp [List.isPrefixOf] at hpre
  | case5 e t3 he ih =>
    intro h3 hpre
    rw [tokenize_ss e t3 he, rendSegs] at hpre
    simp only [segSsl] at hpre
    have hM2 : globstarMarker = '_' :: '_' :: chars "GLOBSTAR__" := by decide
    have hw2 : chars "_GLOBSTAR__" = '_' :: 'G' :: chars "LOBSTAR__" := by decide
    rw [hM2, hw2] at hpre
    simp [List.isPrefixOf] at hpre
  | case6 e t3 he ih =>
    intro h3 hpre
    rw [tokenize_star e t3 he, rendSegs] at hpre
    simp only [segSsl] at hpre
    have hS : chars "[^/]*" = '[' :: chars "^/]*" := by decide
    rw [hS, hwA] at hpre
    simp [List.isPrefixOf] at hpre
  | case7 t3 h ih =>
    intro h3 hpre
    rw [tokenize_qm, rendSegs] at hpre
    simp only [segSsl] at hpre
    have hS : chars "[^/]" = '[' :: chars "^/]" := by decide
    rw [hS, hwA] at hpre
    simp [List.isPrefixOf] at hpre
  | case8 e t3 h1 h2 ih =>
    intro h3 hpre
    rw [tokenize_lit e t3 h1 h2, rendSegs] at hpre
    simp only [segSsl] at hpre
    rcases escapeLit_shape e with ⟨hes, _⟩ | hes
    · rw [hes, hwA] at hpre
      simp [List.isPrefixOf] at hpre
    · rw [hes, hwA] at hpre
      by_cases he : e = '_'
      · subst he
        simp only [List.singleton_append, List.isPrefixOf, Bool.and_eq_true,
          beq_iff_eq] at hpre
        exact spurLetters segSsl (fun c => rfl) segSsl_head (chars "__") t3
          (listHasInfix_tail _ _ _ h3) hpre.2
      · simp only [List.singleton_append, List.isPrefixOf, Bool.and_eq_true,
          beq_iff_eq] at hpre
        exact he hpre.1.symm

/-- The rendering of a nonempty pattern not starting with `*` begins with
a character that is not `*` (and not `/` unless the pattern starts with
`/`), for any stage whose `?` and literal segments are still textual. -/
theorem rendSegs_headNeStar (f : GTok → List Char)
    (hfq : f GTok.qm = ['?']) (hfl : ∀ c, f (GTok.lit c) = escapeLit c)
    (e : Char) (r : List Char) (he : ¬e = '*') :
    ∃ d Y, rendSegs f (tokenize (e :: r)) = d :: Y ∧ d ≠ '*' ∧ (¬e = '/' → d ≠ '/') := by
  by_cases hq : e = '?'
  · subst hq
    rw [tokenize_qm, rendSegs, hfq]
    exact ⟨'?', rendSegs f (tokenize r), rfl, by decide, fun _ => by decide⟩
  · rw [tokenize_lit e r he hq, rendSegs, hfl]
    rcases escapeLit_shape e with ⟨hes, _⟩ | hes
    · rw [hes]
      exact ⟨'\\', e :: rendSegs f (tokenize r), rfl, by decide, fun _ => by decide⟩
    · rw [hes]
      exact ⟨e, rendSegs f (tokenize r), rfl, he, fun h => h⟩

/-- First pass: `**/` becomes the slash marker and nothing else is
touched (on patterns free of `***`). -/
theorem replacePassOne : ∀ l : List Char, listHasInfix (chars "***") l = false →
    replaceAllSub (chars "**/") globstarSlashMarker (rendSegs segEsc (tokenize l)) =
      rendSegs segM1 (tokenize l) := by
  intro l
  induction l using tokenize.induct with
  | case1 => intro _; rfl
  | case2 => intro _; decide
  | case3 => intro _; decide
  | case4 t3 ih =>
    intro h2
    rw [tokenize_ssl]
    simp only [rendSegs, segEsc, segM1]
    rw [replaceAllSub_matchHead _ _ _ (by decide)]
    rw [ih (listHasInfix_tail _ _ _ (listHasInfix_tail _ _ _ (listHasInfix_tail _ _ _ h2)))]
  | case5 e t3 he ih =>
    intro h2
    have hes : e ≠ '*' := by
      intro hee
      subst hee
      have hp : (chars "***").isPrefixOf ('*' :: '*' :: '*' :: t3) = true := by
        rw [show chars "***" = ['*', '*', '*'] from by decide]
        simp [List.isPrefixOf]
      have := listHasInfix_of_pre _ _ hp
      rw [h2] at this
      exact Bool.false_ne_true this
    rw [tokenize_ss e t3 he]
    simp only [rendSegs, segEsc, segM1]
    obtain ⟨d, Y, hdY, hdstar, hdslash⟩ :=
      rendSegs_headNeStar segEsc rfl (fun c => rfl) e t3 hes
    rw [hdY]
    rw [show chars "**" = ['*', '*'] from by decide]
    simp only [List.cons_append, List.nil_append]
    have hne : d ≠ '/' := hdslash he
    have h0 : (chars "**/").isPrefixOf ('*' :: '*' :: d :: Y) = false := by
      rw [show chars "**/" = ['*', '*', '/'] from by decide]
      simp [List.isPrefixOf, beq_iff_eq, Ne.symm hne]
    have h1 : (chars "**/").isPrefixOf ('*' :: d :: Y) = false := by
      rw [show chars "**/" = ['*', '*', '/'] from by decide]
      simp [List.isPrefixOf, beq_iff_eq, Ne.symm hdstar]
    rw [replaceAllSub_noMatchCons _ _ _ _ h0, replaceAllSub_noMatchCons _ _ _ _ h1]
    rw [← hdY, ih (listHasInfix_tail _ _ _ (listHasInfix_tail _ _ _ h2))]
  | case6 e t3 he ih =>
    intro h2
    rw [tokenize_star e t3 he]
    simp only [rendSegs, segEsc, segM1]
    obtain ⟨d, Y, hdY, hdstar, _⟩ :=
      rendSegs_headNeStar segEsc rfl (fun c => rfl) e t3 he
    rw [hdY]
    simp only [List.singleton_append]
    have h0 : (chars "**/").isPrefixOf ('*' :: d :: Y) = false := by
      rw [show chars "**/" = ['*', '*', '/'] from by decide]
      simp [List.isPrefixOf, beq_iff_eq, Ne.symm hdstar]
    rw [replaceAllSub_noMatchCons _ _ _ _ h0]
    rw [← hdY, ih (listHasInfix_tail _ _ _ h2)]
  | case7 t3 h ih =>
    intro h2
    rw [tokenize_qm]
    simp only [rendSegs, segEsc, segM1]
    simp only [List.singleton_append]
    have h0 : (chars "**/").isPrefixOf ('?' :: rendSegs segEsc (tokenize t3)) = false := by
      rw [show chars "**/" = ['*', '*', '/'] from by decide]
      simp [List.isPrefixOf]
    rw [replaceAllSub_noMatchCons _ _ _ _ h0, ih (listHasInfix_tail _ _ _ h2)]
  | case8 e t3 h1 h2x ih =>
    intro hin
    rw [tokenize_lit e t3 h1 h2x]
    simp only [rendSegs, segEsc, segM1]
    have hmem : ∀ c ∈ escapeLit e, c ≠ '*' := by
      intro c hc
      rcases escapeLit_shape e with ⟨hes, _⟩ | hes
      · rw [hes] at hc
        simp at hc
        rcases hc with rfl | rfl
        · decide
        · exact h1
      · rw [hes] at hc
        simp at hc
        subst hc
        exact h1
    rw [show chars "**/" = '*' :: chars "*/" from by decide]
    rw [replaceAllSub_skipSeg _ _ _ _ _ hmem]
    rw [show ('*' :: chars "*/" : List Char) = chars "**/" from by decide]
    rw [ih (listHasInfix_tail _ _ _ hin)]

/-- Second pass: remaining `**` becomes the globstar marker. -/
theorem replacePassTwo : ∀ l : List Char,
    replaceAllSub (chars "**") globstarMarker (rendSegs segM1 (tokenize l)) =
      rendSegs segM2 (tokenize l) := by
  intro l
  induction l using tokenize.induct with
  | case1 => rfl
  | case2 => decide
  | case3 => decide
  | case4 t3 ih =>
    rw [tokenize_ssl]
    simp only [rendSegs, segM1, segM2]
    rw [show chars "**" = '*' :: chars "*" from by decide]
    rw [replaceAllSub_skipSeg _ _ _ _ _ (by decide : ∀ c ∈ globstarSlashMarker, c ≠ '*')]
    rw [show ('*' :: chars "*" : List Char) = chars "**" from by decide, ih]
  | case5 e t3 he ih =>
    rw [tokenize_ss e t3 he]
    simp only [rendSegs, segM1, segM2]
    rw [replaceAllSub_matchHead _ _ _ (by decide), ih]
  | case6 e t3 he ih =>
    rw [tokenize_star e t3 he]
    simp only [rendSegs, segM1, segM2]
    obtain ⟨d, Y, hdY, hdstar, _⟩ :=
      rendSegs_headNeStar segM1 rfl (fun c => rfl) e t3 he
    rw [hdY]
    simp only [List.singleton_append]
    have h0 : (chars "**").isPrefixOf ('*' :: d :: Y) = false := by
      rw [show chars "**" = ['*', '*'] from by decide]
      simp [List.isPrefixOf, beq_iff_eq, Ne.symm hdstar]
    rw [replaceAllSub_noMatchCons _ _ _ _ h0, ← hdY, ih]
  | case7 t3 h ih =>
    rw [tokenize_qm]
    simp only [rendSegs, segM1, segM2]
    rw [show chars "**" = '*' :: chars "*" from by decide]
    rw [replaceAllSub_skipSeg _ _ _ _ _ (by decide : ∀ c ∈ ['?'], c ≠ '*')]
    rw [show ('*' :: chars "*" : List Char) = chars "**" from by decide, ih]
  | case8 e t3 h1 h2x ih =>
    rw [tokenize_lit e t3 h1 h2x]
    simp only [rendSegs, segM1, segM2]
    have hmem : ∀ c ∈ escapeLit e, c ≠ '*' := by
      intro c hc
      rcases escapeLit_shape e with ⟨hes, _⟩ | hes
      · rw [hes] at hc
        simp at hc
        rcases hc with rfl | rfl
        · decide
        · exact h1
      · rw [hes] at hc
        simp at hc
        subst hc
        exact h1
    rw [show chars "**" = '*' :: chars "*" from by decide]
    rw [replaceAllSub_skipSeg _ _ _ _ _ hmem]
    rw [show ('*' :: chars "*" : List Char) = chars "**" from by decide, ih]

/-- Third pass: remaining `*` becomes `[^/]*`. -/
theorem replacePassThree : ∀ l : List Char,
    replaceAllSub ['*'] (chars "[^/]*") (rendSegs segM2 (tokenize l)) =
      rendSegs segStar (tokenize l) := by
  intro l
  induction l using tokenize.induct with
  | case1 => rfl
  | case2 => decide
  | case3 => decide
  | case4 t3 ih =>
    rw [tokenize_ssl]
    simp only [rendSegs, segM2, segStar]
    rw [replaceAllSub_skipSeg _ _ _ _ _ (by decide : ∀ c ∈ globstarSlashMarker, c ≠ '*'), ih]
  | case5 e t3 he ih =>
    rw [tokenize_ss e t3 he]
    simp only [rendSegs, segM2, segStar]
    rw [replaceAllSub_skipSeg _ _ _ _ _ (by decide : ∀ c ∈ globstarMarker, c ≠ '*'), ih]
  | case6 e t3 he ih =>
    rw [tokenize_star e t3 he]
    simp only [rendSegs, segM2, segStar]
    rw [replaceAllSub_matchHead _ _ _ (by decide), ih]
  | case7 t3 h ih =>
    rw [tokenize_qm]
    simp only [rendSegs, segM2, segStar]
    rw [replaceAllSub_skipSeg _ _ _ _ _ (by decide : ∀ c ∈ ['?'], c ≠ '*'), ih]
  | case8 e t3 h1 h2x ih =>
    rw [tokenize_lit e t3 h1 h2x]
    simp only [rendSegs, segM2, segStar]
    have hmem : ∀ c ∈ escapeLit e, c ≠ '*' := by
      intro c hc
      rcases escapeLit_shape e with ⟨hes, _⟩ | hes
      · rw [hes] at hc
        simp at hc
        rcases hc with rfl | rfl
        · decide
        · exact h1
      · rw [hes] at hc
        simp at hc
        subst hc
        exact h1
    rw [replaceAllSub_skipSeg _ _ _ _ _ hmem, ih]

/-- Fourth pass: `?` becomes `[^/]`. -/
theorem replacePassFour : ∀ l : List Char,
    replaceAllSub ['?'] (chars "[^/]") (rendSegs segStar (tokenize l)) =
      rendSegs segQm (tokenize l) := by
  intro l
  induction l using tokenize.induct with
  | case1 => rfl
  | case2 => decide
  | case3 => decide
  | case4 t3 ih =>
    rw [tokenize_ssl]
    simp only [rendSegs, segStar, segQm]
    rw [replaceAllSub_skipSeg _ _ _ _ _ (by decide : ∀ c ∈ globstarSlashMarker, c ≠ '?'), ih]
  | case5 e t3 he ih =>
    rw [tokenize_ss e t3 he]
    simp only [rendSegs, segStar, segQm]
    rw [replaceAllSub_skipSeg _ _ _ _ _ (by decide : ∀ c ∈ globstarMarker, c ≠ '?'), ih]
  | case6 e t3 he ih =>
    rw [tokenize_star e t3 he]
    simp only [rendSegs, segStar, segQm]
    rw [replaceAllSub_skipSeg _ _ _ _ _ (by decide : ∀ c ∈ chars "[^/]*", c ≠ '?'), ih]
  | case7 t3 h ih =>
    rw [tokenize_qm]
    simp only [rendSegs, segStar, segQm]
    rw [replaceAllSub_matchHead _ _ _ (by decide), ih]
  | case8 e t3 h1 h2x ih =>
    rw [tokenize_lit e t3 h1 h2x]
    simp only [rendSegs, segStar, segQm]
    have hmem : ∀ c ∈ escapeLit e, c ≠ '?' := by
      intro c hc
      rcases escapeLit_shape e with ⟨hes, _⟩ | hes
      · rw [hes] at hc
        simp at hc
        rcases hc with rfl | rfl
        · decide
        · exact h2x
      · rw [hes] at hc
        simp at hc
        subst hc
        exact h2x
    rw [replaceAllSub_skipSeg _ _ _ _ _ hmem, ih]

/-- Fifth pass: the slash marker resolves to `(.*/)?`; on patterns free
of the text `GLOBSTAR` no spurious marker occurrence exists. -/
theorem replacePassFive : ∀ l : List Char, listHasInfix (chars "GLOBSTAR") l = false →
    replaceAllSub globstarSlashMarker (chars "(.*/)?") (rendSegs segQm (tokenize l)) =
      rendSegs segSsl (tokenize l) := by
  intro l
  induction l using tokenize.induct with
  | case1 => intro _; rfl
  | case2 => intro _; decide
  | case3 => intro _; decide
  | case4 t3 ih =>
    intro h3
    rw [tokenize_ssl]
    simp only [rendSegs, segQm, segSsl]
    rw [replaceAllSub_matchHead _ _ _ (by decide)]
    rw [ih (listHasInfix_tail _ _ _ (listHasInfix_tail _ _ _ (listHasInfix_tail _ _ _ h3)))]
  | case5 e t3 he ih =>
    intro h3
    have h3t : listHasInfix (chars "GLOBSTAR") (e :: t3) = false :=
      listHasInfix_tail _ _ _ (listHasInfix_tail _ _ _ h3)
    rw [tokenize_ss e t3 he]
    simp only [rendSegs, segQm, segSsl]
    set X := rendSegs segQm (tokenize (e :: t3)) with hX
    have h0 : globstarSlashMarker.isPrefixOf
        ('_' :: '_' :: (chars "GLOBSTAR" ++ ('_' :: '_' :: X))) = false := by
      rw [show globstarSlashMarker =
          ['_', '_', 'G', 'L', 'O', 'B', 'S', 'T', 'A', 'R', '_', 'S', 'L', 'A', 'S', 'H',
            '_', '_'] from by decide,
        show chars "GLOBSTAR" = ['G', 'L', 'O', 'B', 'S', 'T', 'A', 'R'] from by decide]
      simp [List.isPrefixOf]
    have h1 : globstarSlashMarker.isPrefixOf
        ('_' :: (chars "GLOBSTAR" ++ ('_' :: '_' :: X))) = false := by
      rw [show globstarSlashMarker =
          ['_', '_', 'G', 'L', 'O', 'B', 'S', 'T', 'A', 'R', '_', 'S', 'L', 'A', 'S', 'H',
            '_', '_'] from by decide,
        show chars "GLOBSTAR" = ['G', 'L', 'O', 'B', 'S', 'T', 'A', 'R'] from by decide]
      simp [List.isPrefixOf]
    have h10 : ('_' :: chars "_GLOBSTAR_SLASH__").isPrefixOf ('_' :: '_' :: X) = false := by
      cases hc : ('_' :: chars "_GLOBSTAR_SLASH__").isPrefixOf ('_' :: '_' :: X) with
      | false => rfl
      | true =>
        exfalso
        rw [show chars "_GLOBSTAR_SLASH__" =
            '_' :: (chars "GLOBSTAR" ++ chars "_SLASH__") from by decide] at hc
        simp only [List.isPrefixOf, Bool.and_eq_true, beq_iff_eq, true_and] at hc
        rw [hX] at hc
        exact spurLetters segQm (fun c => rfl) segQm_head (chars "_SLASH__") (e :: t3) h3t hc
    have h11 : ('_' :: chars "_GLOBSTAR_SLASH__").isPrefixOf ('_' :: X) = false := by
      cases hc : ('_' :: chars "_GLOBSTAR_SLASH__").isPrefixOf ('_' :: X) with
      | false => rfl
      | true =>
        exfalso
        simp only [List.isPrefixOf, Bool.and_eq_true, beq_iff_eq, true_and] at hc
        rw [hX] at hc
        exact spurMarkOne (e :: t3) h3t hc
    rw [show globstarMarker =
        '_' :: '_' :: (chars "GLOBSTAR" ++ ('_' :: '_' :: ([] : List Char))) from by decide]
    simp only [List.cons_append, List.append_assoc, List.nil_append]
    rw [replaceAllSub_noMatchCons _ _ _ _ h0, replaceAllSub_noMatchCons _ _ _ _ h1]
    rw [show globstarSlashMarker = '_' :: chars "_GLOBSTAR_SLASH__" from by decide]
    rw [replaceAllSub_skipSeg _ _ _ _ _ (by decide : ∀ c ∈ chars "GLOBSTAR", c ≠ '_')]
    rw [replaceAllSub_noMatchCons _ _ _ _ h10, replaceAllSub_noMatchCons _ _ _ _ h11]
    rw [show ('_' :: chars "_GLOBSTAR_SLASH__" : List Char) = globstarSlashMarker from by decide]
    rw [hX, ih h3t]
  | case6 e t3 he ih =>
    intro h3
    rw [tokenize_star e t3 he]
    simp only [rendSegs, segQm, segSsl]
    rw [show globstarSlashMarker = '_' :: chars "_GLOBSTAR_SLASH__" from by decide]
    rw [replaceAllSub_skipSeg _ _ _ _ _ (by decide : ∀ c ∈ chars "[^/]*", c ≠ '_')]
    rw [show ('_' :: chars "_GLOBSTAR_SLASH__" : List Char) = globstarSlashMarker from by decide]
    rw [ih (listHasInfix_tail _ _ _ h3)]
  | case7 t3 h ih =>
    intro h3
    rw [tokenize_qm]
    simp only [rendSegs, segQm, segSsl]
    rw [show globstarSlashMarker = '_' :: chars "_GLOBSTAR_SLASH__" from by decide]
    rw [replaceAllSub_skipSeg _ _ _ _ _ (by decide : ∀ c ∈ chars "[^/]", c ≠ '_')]
    rw [show ('_' :: chars "_GLOBSTAR_SLASH__" : List Char) = globstarSlashMarker from by decide]
    rw [ih (listHasInfix_tail _ _ _ h3)]
  | case8 e t3 h1 h2x ih =>
    intro h3
    rw [tokenize_lit e t3 h1 h2x]
    simp only [rendSegs, segQm, segSsl]
    rcases escapeLit_shape e with ⟨hes, heu, _⟩ | hes
    · rw [hes]
      rw [show globstarSlashMarker = '_' :: chars "_GLOBSTAR_SLASH__" from by decide]
      rw [replaceAllSub_skipSeg _ _ _ _ _ (by
        intro c hc
        simp at hc
        rcases hc with rfl | rfl
        · decide
        · exact heu)]
      rw [show ('_' :: chars "_GLOBSTAR_SLASH__" : List Char) = globstarSlashMarker from by decide]
      rw [ih (listHasInfix_tail _ _ _ h3)]
    · rw [hes]
      by_cases hu : e = '_'
      · subst hu
        simp only [List.singleton_append]
        have h0 : globstarSlashMarker.isPrefixOf
            ('_' :: rendSegs segQm (tokenize t3)) = false := by
          cases hc : globstarSlashMarker.isPrefixOf ('_' :: rendSegs segQm (tokenize t3)) with
          | false => rfl
          | true =>
            exfalso
            rw [show globstarSlashMarker =
                '_' :: chars "_GLOBSTAR_SLASH__" from by decide] at hc
            simp only [List.isPrefixOf, Bool.and_eq_true, beq_iff_eq, true_and] at hc
            exact spurMarkOne t3 (listHasInfix_tail _ _ _ h3) hc
        rw [replaceAllSub_noMatchCons _ _ _ _ h0, ih (listHasInfix_tail _ _ _ h3)]
      · rw [show globstarSlashMarker = '_' :: chars "_GLOBSTAR_SLASH__" from by decide]
        rw [replaceAllSub_skipSeg _ _ _ _ _ (by
          intro c hc
          simp at hc
          subst hc
          exact hu)]
        rw [show ('_' :: chars "_GLOBSTAR_SLASH__" : List Char) = globstarSlashMarker from by decide]
        rw [ih (listHasInfix_tail _ _ _ h3)]

/-- Sixth pass: the globstar marker resolves to `.*`. -/
theorem replacePassSix : ∀ l : List Char, listHasInfix (chars "GLOBSTAR") l = false →
    replaceAllSub globstarMarker (chars ".*") (rendSegs segSsl (tokenize l)) =
      rendSegs specGlobTok (tokenize l) := by
  intro l
  induction l using tokenize.induct with
  | case1 => intro _; rfl
  | case2 => intro _; decide
  | case3 => intro _; decide
  | case4 t3 ih =>
    intro h3
    rw [tokenize_ssl]
    simp only [rendSegs, segSsl, specGlobTok]
    rw [show globstarMarker = '_' :: chars "_GLOBSTAR__" from by decide]
    rw [replaceAllSub_skipSeg _ _ _ _ _ (by decide : ∀ c ∈ chars "(.*/)?", c ≠ '_')]
    rw [show ('_' :: chars "_GLOBSTAR__" : List Char) = globstarMarker from by decide]
    rw [ih (listHasInfix_tail _ _ _ (listHasInfix_tail _ _ _ (listHasInfix_tail _ _ _ h3)))]
  | case5 e t3 he ih =>
    intro h3
    rw [tokenize_ss e t3 he]
    simp only [rendSegs, segSsl, specGlobTok]
    rw [replaceAllSub_matchHead _ _ _ (by decide)]
    rw [ih (listHasInfix_tail _ _ _ (listHasInfix_tail _ _ _ h3))]
  | case6 e t3 he ih =>
    intro h3
    rw [tokenize_star e t3 he]
    simp only [rendSegs, segSsl, specGlobTok]
    rw [show globstarMarker = '_' :: chars "_GLOBSTAR__" from by decide]
    rw [replaceAllSub_skipSeg _ _ _ _ _ (by decide : ∀ c ∈ chars "[^/]*", c ≠ '_')]
    rw [show ('_' :: chars "_GLOBSTAR__" : List Char) = globstarMarker from by decide]
    rw [ih (listHasInfix_tail _ _ _ h3)]
  | case7 t3 h ih =>
    intro h3
    rw [tokenize_qm]
    simp only [rendSegs, segSsl, specGlobTok]
    rw [show globstarMarker = '_' :: chars "_GLOBSTAR__" from by decide]
    rw [replaceAllSub_skipSeg _ _ _ _ _ (by decide : ∀ c ∈ chars "[^/]", c ≠ '_')]
    rw [show ('_' :: chars "_GLOBSTAR__" : List Char) = globstarMarker from by decide]
    rw [ih (listHasInfix_tail _ _ _ h3)]
  | case8 e t3 h1 h2x ih =>
    intro h3
    rw [tokenize_lit e t3 h1 h2x]
    simp only [rendSegs, segSsl, specGlobTok]
    rcases escapeLit_shape e with ⟨hes, heu, _⟩ | hes
    · rw [hes]
      rw [show globstarMarker = '_' :: chars "_GLOBSTAR__" from by decide]
      rw [replaceAllSub_skipSeg _ _ _ _ _ (by
        intro c hc
        simp at hc
        rcases hc with rfl | rfl
        · decide
        · exact heu)]
      rw [show ('_' :: chars "_GLOBSTAR__" : List Char) = globstarMarker from by decide]
      rw [ih (listHasInfix_tail _ _ _ h3)]
    · rw [hes]
      by_cases hu : e = '_'
      · subst hu
        simp only [List.singleton_append]
        have h0 : globstarMarker.isPrefixOf
            ('_' :: rendSegs segSsl (tokenize t3)) = false := by
          cases hc : globstarMarker.isPrefixOf ('_' :: rendSegs segSsl (tokenize t3)) with
          | false => rfl
          | true =>
            exfalso
            rw [show globstarMarker = '_' :: chars "_GLOBSTAR__" from by decide] at hc
            simp only [List.isPrefixOf, Bool.and_eq_true, beq_iff_eq, true_and] at hc
            exact spurMarkTwo t3 (listHasInfix_tail _ _ _ h3) hc
        rw [replaceAllSub_noMatchCons _ _ _ _ h0, ih (listHasInfix_tail _ _ _ h3)]
      · rw [show globstarMarker = '_' :: chars "_GLOBSTAR__" from by decide]
        rw [replaceAllSub_skipSeg _ _ _ _ _ (by
          intro c hc
          simp at hc
          subst hc
          exact hu)]
        rw [show ('_' :: chars "_GLOBSTAR__" : List Char) = globstarMarker from by decide]
        rw [ih (listHasInfix_tail _ _ _ h3)]

/-- C7: the claim as literally stated fails.  A pattern containing the
compiler's internal placeholder text is mistranslated (its
`__GLOBSTAR__` text is replaced by `.*`); an unclosed `[` is
backslash-escaped by a rewrite the claim does not mention (`[` is not in
the escaped metacharacter set); and a `***` run is consumed as a `**/`
match at offset 1 rather than read left to right. -/
theorem globToRegex_chain_counterexample :
    globToRegex "/a/*__GLOBSTAR__b" ≠ specGlobTranslate "/a/*__GLOBSTAR__b" ∧
    globToRegex "/a/*[x" ≠ specGlobTranslate "/a/*[x" ∧
    globToRegex "/a/***/" ≠ specGlobTranslate "/a/***/" := by
  refine ⟨?_, ?_, ?_⟩ <;> decide

/-- C7 (amended): for every glob pattern free of `[`, of triple-star
runs, and of the placeholder text `GLOBSTAR`, `globToRegex` emits
exactly the anchored left-to-right translation the spec describes
(`**/` to `(.*/)?`, `**` to `.*`, `*` to `[^/]*`, `?` to `[^/]`, regex
metacharacters in literal parts backslash-escaped); and non-glob
patterns instead get a `subpath` rule from `createRuleWithGlobSupport`. -/
theorem globToRegex_token_translation (p : String)
    (h1 : '[' ∉ chars p)
    (h2 : listHasInfix (chars "***") (chars p) = false)
    (h3 : listHasInfix (chars "GLOBSTAR") (chars p) = false) :
    globToRegex p = specGlobTranslate p ∧
    ∀ (env : PathEnv) (pathPattern ruleType action logTag : String),
      containsGlobChars (normalizePathForSandbox env pathPattern) = false →
      createRuleWithGlobSupport env pathPattern ruleType action logTag =
        ["(" ++ action ++ " " ++ ruleType,
          "  (subpath " ++ escapePath (normalizePathForSandbox env pathPattern) ++ ")",
          "  (with message \"" ++ logTag ++ "\"))"] := by
  constructor
  · unfold globToRegex specGlobTranslate
    rw [bracketFix_id _ (regexEscapeStep_no_bracket _ (fun c hc he => h1 (he ▸ hc)))]
    rw [regexEscapeStep_rend]
    rw [replacePassOne _ h2, replacePassTwo, replacePassThree, replacePassFour,
      replacePassFive _ h3, replacePassSix _ h3]
  · intro env pathPattern ruleType action logTag h
    simp only [createRuleWithGlobSupport, h, Bool.false_eq_true, if_false]

theorem globToRegex_token_translation_witness :
    ('[' ∉ chars "/a/**/*.txt" ∧
      listHasInfix (chars "***") (chars "/a/**/*.txt") = false ∧
      listHasInfix (chars "GLOBSTAR") (chars "/a/**/*.txt") = false) ∧
    globToRegex "/a/**/*.txt" = specGlobTranslate "/a/**/*.txt" :=
  ⟨⟨by decide, by decide, by decide⟩,
    (globToRegex_token_translation "/a/**/*.txt" (by decide) (by decide) (by decide)).1⟩

end Sandbox
